import Mathlib

/-!
Verification development for the tidewave control-plane server core
(WSGI middleware, MCP JSON-RPC dispatcher, tool registry, sandboxed
evaluation and command streaming).

The Python source is shallowly embedded: strings are modelled as `String`
or `List Char`, Python dicts as association lists with insert-or-update
semantics, JSON values as an inductive `JVal`, and raised exceptions as
`Except`.  External collaborators (the `urllib` URL parser, the pydantic
validation engine, host-supplied tool handlers, the operating system's
process behaviour) are abstracted as explicit function parameters or
input data of the embedded functions; everything else follows the source
line by line.
-/

set_option maxHeartbeats 1000000
set_option maxRecDepth 16384

/-- Characters treated as whitespace by Python's `str.strip` / `str.split`
(ASCII subset, which is all that occurs in the modelled values). -/
def pyIsSpace (c : Char) : Bool :=
  c = ' ' || c = '\t' || c = '\n' || c = '\x0d' || c = '\x0b' || c = '\x0c'

/-- Python `str.lstrip()` on a character list. -/
def stripL (s : List Char) : List Char := s.dropWhile pyIsSpace

/-- Python `str.rstrip()` on a character list. -/
def stripR (s : List Char) : List Char := (s.reverse.dropWhile pyIsSpace).reverse

/-- Python `str.strip()` on a character list. -/
def pyStrip (s : List Char) : List Char := stripR (stripL s)

/-- Python `s.split(sep)` for a one-character separator: splits on every
occurrence, keeping empty pieces (so `"".split(";") == [""]`). -/
def splitOnChar (sep : Char) : List Char → List (List Char)
  | [] => [[]]
  | c :: cs =>
    if c = sep then [] :: splitOnChar sep cs
    else
      match splitOnChar sep cs with
      | [] => [[c]]
      | r :: rs => (c :: r) :: rs

/-- Python `part.split(" ", 1)`: `some (before, after)` at the first space,
`none` when the list has no space (the `" " in part` test). -/
def breakAtSpace : List Char → Option (List Char × List Char)
  | [] => none
  | c :: cs =>
    if c = ' ' then some ([], cs)
    else (breakAtSpace cs).map (fun p => (c :: p.1, p.2))

/-- Splits off the longest non-whitespace first word: `(word, rest)`. -/
def takeWord : List Char → List Char × List Char
  | [] => ([], [])
  | c :: cs =>
    if pyIsSpace c then ([], c :: cs)
    else
      let p := takeWord cs
      (c :: p.1, p.2)

/-- Python `s.split()` (no argument): split on runs of whitespace,
discarding empty words. -/
def pySplitWs : List Char → List (List Char)
  | [] => []
  | c :: cs =>
    if pyIsSpace c then pySplitWs cs
    else (c :: (takeWord cs).1) :: pySplitWs (takeWord cs).2
termination_by s => s.length
decreasing_by
  all_goals simp
  have h : ∀ t : List Char, (takeWord t).2.length ≤ t.length := by
    intro t
    induction t with
    | nil => simp [takeWord]
    | cons a as ih =>
      simp only [takeWord]
      split
      · simp
      · simpa using Nat.le_succ_of_le ih
  have := h cs
  omega

/-- Python `sep.join(parts)`. -/
def joinWith (sep : List Char) : List (List Char) → List Char
  | [] => []
  | [x] => x
  | x :: y :: xs => x ++ sep ++ joinWith sep (y :: xs)

/-- ASCII lowercasing of one character, as Python `str.lower` acts on the
ASCII values occurring in this model. -/
def lowerChar (c : Char) : Char :=
  match c with
  | 'A' => 'a' | 'B' => 'b' | 'C' => 'c' | 'D' => 'd' | 'E' => 'e'
  | 'F' => 'f' | 'G' => 'g' | 'H' => 'h' | 'I' => 'i' | 'J' => 'j'
  | 'K' => 'k' | 'L' => 'l' | 'M' => 'm' | 'N' => 'n' | 'O' => 'o'
  | 'P' => 'p' | 'Q' => 'q' | 'R' => 'r' | 'S' => 's' | 'T' => 't'
  | 'U' => 'u' | 'V' => 'v' | 'W' => 'w' | 'X' => 'x' | 'Y' => 'y'
  | 'Z' => 'z'
  | c => c

/-- Python `str.lower()` on a character list. -/
def toLowerS (s : List Char) : List Char := s.map lowerChar

/-- Python `str.lower()` on a `String`. -/
def pyLower (s : String) : String := ⟨toLowerS s.data⟩

/-- Python `host.endswith(suffix)`. -/
def pyEndsWith (host sfx : String) : Bool := sfx.data.isSuffixOf host.data

/-- Python `path.startswith(p)`. -/
def pyStartsWith (s p : String) : Bool := p.data.isPrefixOf s.data

/-- Python's `<` on strings: lexicographic comparison by code point. -/
def pyStrLtL : List Char → List Char → Bool
  | [], [] => false
  | [], _ :: _ => true
  | _ :: _, [] => false
  | a :: as, b :: bs =>
    if a.toNat < b.toNat then true
    else if b.toNat < a.toNat then false
    else pyStrLtL as bs

/-- Python's `<` on strings, on the `String` wrapper. -/
def pyStrLt (a b : String) : Bool := pyStrLtL a.data b.data

/-- Python's `re.match(r"^127\.0\.0\.\d\x7b1,3\x7d$", ip_str)` as a Boolean:
the literal prefix `127.0.0.` followed by one to three decimal digits. -/
def matches127 (s : String) : Bool :=
  match s.data with
  | '1' :: '2' :: '7' :: '.' :: '0' :: '.' :: '0' :: '.' :: ds =>
    decide (1 ≤ ds.length) && decide (ds.length ≤ 3) && ds.all (·.isDigit)
  | _ => false

/-- The middleware configuration dict: only the keys the security gate
reads.  `allowed_origins = none` models the key being absent from the
dict (so that `config.get` falls back to its default). -/
structure MWConfig where
  allow_remote_access : Bool := false
  allowed_origins : Option (List String) := none

/-- Middleware._validate_ip: with `allow_remote_access` everything passes;
otherwise only `127.0.0.x`, `::1` and `::ffff:127.0.0.1` are accepted. -/
def validate_ip (cfg : MWConfig) (ip_str : String) : Bool :=
  if cfg.allow_remote_access then true
  else if matches127 ip_str then true
  else if ip_str = "::1" then true
  else if ip_str = "::ffff:127.0.0.1" then true
  else false

/-- Middleware._validate_allowed_origin: Django ALLOWED_HOSTS-style
matching of an (already lowercased) origin host. -/
def validate_allowed_origin (cfg : MWConfig) (host : String) : Bool :=
  let allowed_origins := cfg.allowed_origins.getD [".localhost", "127.0.0.1", "::1"]
  if allowed_origins.isEmpty then false
  else
    allowed_origins.any (fun allowed0 =>
      let allowed := pyLower allowed0
      if allowed = "*" then true
      else if host = allowed then true
      else if pyStartsWith allowed "." then
        let domain := ⟨allowed.data.drop 1⟩
        host = domain || pyEndsWith host ("." ++ domain)
      else false)

/-- The rejection message for a disallowed remote address. -/
def ipDenialMsg : String :=
  "For security reasons, Tidewave does not accept remote connections by default.\n\n" ++
  "If you really want to allow remote connections, " ++
  "configure Tidewave with the `allow_remote_access: true` option"

/-- The rejection message for an unparseable Origin header. -/
def malformedOriginMsg (origin : String) : String :=
  "For security reasons, Tidewave only accepts requests from allowed hosts.\n\n" ++
  "The origin header appears to be malformed: " ++ origin

/-- The rejection message for a disallowed Origin host. -/
def originDenialMsg (host : String) : String :=
  "For security reasons, Tidewave only accepts requests from allowed hosts.\n\n" ++
  "If you want to allow requests from '" ++ host ++ "', " ++
  "you must configure your framework/Tidewave accordingly"

/-- Middleware._check_security.  `parseHostname` stands for the external
`urllib.parse.urlparse(origin).hostname`; `origin = none` models the
`HTTP_ORIGIN` key being absent from the WSGI environ.  Returns the error
message, or `none` when the request is permitted. -/
def check_security (parseHostname : String → Option String) (cfg : MWConfig)
    (remote_addr : String) (origin : Option String) : Option String :=
  if !validate_ip cfg remote_addr then some ipDenialMsg
  else
    match origin with
    | none => none
    | some o =>
      if o = "" then none
      else
        match parseHostname o with
        | none => some (malformedOriginMsg o)
        | some hostname =>
          let host := pyLower hostname
          if !validate_allowed_origin cfg host then some (originDenialMsg host)
          else none

/-- An HTTP-level response of the middleware: status code and plain body. -/
structure HttpReject where
  status : Nat
  body : String
deriving DecidableEq

/-- The security portion of Middleware.__call__: on a path under the
`/tidewave` mount point a failed security check is turned into an HTTP
403 with the check's message; otherwise routing continues (`none`). -/
def securityGate (parseHostname : String → Option String) (cfg : MWConfig)
    (full_path remote_addr : String) (origin : Option String) : Option HttpReject :=
  if pyStartsWith full_path "/tidewave" then
    match check_security parseHostname cfg remote_addr origin with
    | some err => some ⟨403, err⟩
    | none => none
  else none

/-- Modelled from the claim's wording (for the refinement comparison with
`validate_ip`): a dotted-quad IPv4 address in the loopback block
127.0.0.0/8, i.e. four dot-separated decimal octets, each at most 255,
the first equal to 127. -/
def claimIsIPv4LoopbackSlash8 (s : String) : Bool :=
  match (splitOnChar '.' s.data).map (fun p => p) with
  | [a, b, c, d] =>
    [a, b, c, d].all (fun o =>
      !o.isEmpty && o.length ≤ 3 && o.all (·.isDigit) &&
        (o.foldl (fun n ch => n * 10 + (ch.toNat - '0'.toNat)) 0) ≤ 255) &&
    a = ['1', '2', '7']
  | _ => false

/-- Modelled from the claim's wording: the address set the claim calls
"local" (IPv4 loopback 127.0.0.0/8, IPv6 loopback, IPv4-mapped loopback). -/
def claimIsLocalAddress (s : String) : Bool :=
  claimIsIPv4LoopbackSlash8 s || s = "::1" || s = "::ffff:127.0.0.1"

/-- A JSON value, as produced by `json.loads` / consumed by `json.dumps`.
Numbers are modelled as integers (all numbers in the modelled protocol are
integral). -/
inductive JVal where
  | null
  | bool (b : Bool)
  | num (n : Int)
  | str (s : String)
  | arr (xs : List JVal)
  | obj (kvs : List (String × JVal))

/-- First-match lookup in a JSON object's key/value list (Python dicts
cannot hold duplicate keys, so parsed objects have distinct keys). -/
def jLookup (kvs : List (String × JVal)) (k : String) : Option JVal :=
  (kvs.find? (fun e => e.1 = k)).map (·.2)

/-- Python `d.get(k)` on a JSON object already known to be a dict. -/
def pyDictGet (j : JVal) (k : String) : JVal :=
  match j with
  | .obj kvs => (jLookup kvs k).getD .null
  | _ => .null

/-- Python `d.get(k)`, raising `AttributeError` when `d` is not a dict. -/
def pyGetE (j : JVal) (k : String) : Except String JVal :=
  match j with
  | .obj kvs => .ok ((jLookup kvs k).getD .null)
  | _ => .error "AttributeError"

/-- Python `d.get(k, dflt)`, raising when `d` is not a dict. -/
def pyGetDE (j : JVal) (k : String) (dflt : JVal) : Except String JVal :=
  match j with
  | .obj kvs => .ok ((jLookup kvs k).getD dflt)
  | _ => .error "AttributeError"

/-- Python truthiness of a JSON value. -/
def pyTruthy : JVal → Bool
  | .null => false
  | .bool b => b
  | .num n => n != 0
  | .str s => s ≠ ""
  | .arr xs => !xs.isEmpty
  | .obj kvs => !kvs.isEmpty

/-- Python `k in d` for a JSON object. -/
def jHasKey (j : JVal) (k : String) : Bool :=
  match j with
  | .obj kvs => (kvs.find? (fun e => e.1 = k)).isSome
  | _ => false

/-- Python `str(x)` for scalar JSON values.  The `repr`-style rendering of
lists and dicts is abstracted (no modelled code path reaches it). -/
def pyScalarStr : JVal → String
  | .null => "None"
  | .bool true => "True"
  | .bool false => "False"
  | .num n => toString n
  | .str s => s
  | .arr _ => ""
  | .obj _ => ""

/-- One field of the pydantic model built by `MCPTool._create_model`:
its name, whether it is required (signature default is
`inspect.Parameter.empty`), and whether a supplied JSON value coerces to
the annotated type (`typeOk` abstracts pydantic's coercion). -/
structure PParam where
  name : String
  required : Bool
  typeOk : JVal → Bool

/-- The callable tool wrapped by `MCPTool`: `handler` is
`str(self.func(**dumped_args))` for the host-supplied function, with
`.error` modelling the function raising (carrying `str(e)`). -/
structure ToolSpec where
  name : String
  modelParams : List PParam
  handler : List (String × JVal) → Except String String

/-- Whether `self.model(**args)` validates: every required field present
and every supplied field coercible to its annotated type (extra keys are
ignored by the pydantic v2 default configuration). -/
def pydanticOk (ps : List PParam) (args : List (String × JVal)) : Bool :=
  ps.all (fun p =>
    match jLookup args p.name with
    | some v => p.typeOk v
    | none => !p.required)

/-- The text of `str(ValidationError)`.  Pydantic generates this text; the
model renders the offending field names (no claim depends on it). -/
def validationErrorText (ps : List PParam) (args : List (String × JVal)) : String :=
  String.intercalate ", "
    ((ps.filter (fun p =>
      match jLookup args p.name with
      | some v => !p.typeOk v
      | none => p.required)).map (·.name))

/-- MCPTool.validate_and_call: validate the arguments with the pydantic
model, call the wrapped function, and catch every failure as an
`\x7b"error": ...\x7d` dict (never letting an exception escape). -/
def validate_and_call (t : ToolSpec) (args : List (String × JVal)) : JVal :=
  if pydanticOk t.modelParams args then
    match t.handler args with
    | .ok r =>
      .obj [("content", .arr [.obj [("type", .str "text"), ("text", .str r)]])]
    | .error e =>
      .obj [("error", .str ("Error executing " ++ t.name ++ ": " ++ e))]
  else
    .obj [("error", .str ("Invalid arguments: " ++ validationErrorText t.modelParams args))]

/-- One entry of `MCPHandler.tools` (keyed by tool name). -/
structure ToolEntry where
  name : String
  description : String
  inputSchema : JVal
  tool_instance : ToolSpec

/-- The `MCPHandler.tools` dict, in insertion order. -/
abbrev ToolDict := List (String × ToolEntry)

/-- Dict lookup in the tool registry. -/
def lookupTool (tools : ToolDict) (s : String) : Option ToolEntry :=
  (tools.find? (fun e => e.1 = s)).map (·.2)

def PROTOCOL_VERSION : String := "2025-03-26"

def MCP_VERSION : String := "1.0.0"

/-- MCPHandler._create_error_response. -/
def create_error_response (request_id : JVal) (code : Int) (message : String) : JVal :=
  .obj [("jsonrpc", .str "2.0"), ("id", request_id),
        ("error", .obj [("code", .num code), ("message", .str message)])]

/-- MCPHandler._get_tool_list. -/
def get_tool_list (tools : ToolDict) : JVal :=
  .arr (tools.map (fun te =>
    .obj [("name", .str te.2.name), ("description", .str te.2.description.trim),
          ("inputSchema", te.2.inputSchema)]))

/-- MCPHandler._handle_ping. -/
def handle_ping (request_id : JVal) : JVal :=
  .obj [("jsonrpc", .str "2.0"), ("id", request_id), ("result", .obj [])]

def unsupportedVersionMsg : String :=
  "Unsupported protocol version. Server supports " ++ PROTOCOL_VERSION ++ " or later"

/-- The MCP handler's initialize logic (source method name: prefixed with
_handle).  A non-string truthy `protocolVersion`
makes Python's `<` raise `TypeError` (propagating to the outer handler),
modelled as `.error`. -/
def handle_init (tools : ToolDict) (request_id : JVal) (params : JVal) :
    Except String JVal :=
  match pyGetE params "protocolVersion" with
  | .error e => .error e
  | .ok client_version =>
    if !pyTruthy client_version then
      .ok (create_error_response request_id (-32602) "Protocol version is required")
    else
      match client_version with
      | .str v =>
        if pyStrLt v PROTOCOL_VERSION then
          .ok (create_error_response request_id (-32602) unsupportedVersionMsg)
        else
          .ok (.obj [("jsonrpc", .str "2.0"), ("id", request_id),
            ("result", .obj [
              ("protocolVersion", .str PROTOCOL_VERSION),
              ("capabilities", .obj [("tools", .obj [("listChanged", .bool false)])]),
              ("serverInfo", .obj [("name", .str "Python MCP Server"),
                                   ("version", .str MCP_VERSION)]),
              ("tools", get_tool_list tools)])])
      | _ => .error "TypeError"

/-- MCPHandler._handle_list_tools. -/
def handle_list_tools (tools : ToolDict) (request_id : JVal) (_params : JVal) : JVal :=
  .obj [("jsonrpc", .str "2.0"), ("id", request_id),
        ("result", .obj [("tools", get_tool_list tools)])]

/-- MCPHandler._handle_call_tool.  Passing a non-mapping `arguments` makes
`self.model(**args)` raise inside validate_and_call's `try`, caught by its
generic `except` into the `\x7b"error": ...\x7d` shape. -/
def handle_call_tool (tools : ToolDict) (request_id : JVal) (params : JVal) :
    Except String JVal :=
  match pyGetE params "name" with
  | .error e => .error e
  | .ok tool_name =>
    match pyGetDE params "arguments" (.obj []) with
    | .error e => .error e
    | .ok argsJ =>
      if !pyTruthy tool_name then
        .ok (create_error_response request_id (-32602) "Tool name is required")
      else
        match tool_name with
        | .str s =>
          match lookupTool tools s with
          | none =>
            .ok (create_error_response request_id (-32601) ("Tool '" ++ s ++ "' not found"))
          | some entry =>
            let result :=
              match argsJ with
              | .obj kvs => validate_and_call entry.tool_instance kvs
              | _ => .obj [("error", .str ("Error executing " ++ entry.tool_instance.name ++
                            ": argument of type mapping required"))]
            match result with
            | .obj kvs =>
              match jLookup kvs "error" with
              | some e =>
                .ok (.obj [("jsonrpc", .str "2.0"), ("id", request_id),
                  ("result", .obj [
                    ("content", .arr [.obj [("type", .str "text"), ("text", e)]]),
                    ("isError", .bool true)])])
              | none =>
                .ok (.obj [("jsonrpc", .str "2.0"), ("id", request_id), ("result", result)])
            | _ =>
              .ok (.obj [("jsonrpc", .str "2.0"), ("id", request_id), ("result", result)])
        | other =>
          -- a truthy non-string name is never a key of the (string-keyed) dict
          .ok (create_error_response request_id (-32601)
            ("Tool '" ++ pyScalarStr other ++ "' not found"))

/-- MCPHandler._handle_message: notification short-circuits, then the
method dispatch table. -/
def handle_message (tools : ToolDict) (message : JVal) : Except String (Option JVal) :=
  let method := pyDictGet message "method"
  let request_id := pyDictGet message "id"
  let params :=
    match message with
    | .obj kvs => (jLookup kvs "params").getD (.obj [])
    | _ => .obj []
  match method with
  | .str "notifications/initialized" => .ok none
  | .str "notifications/cancelled" => .ok none
  | .str "ping" => .ok (some (handle_ping request_id))
  | .str "initialize" => (handle_init tools request_id params).map some
  | .str "tools/list" => .ok (some (handle_list_tools tools request_id params))
  | .str "tools/call" => (handle_call_tool tools request_id params).map some
  | other =>
    .ok (some (.obj [("jsonrpc", .str "2.0"), ("id", request_id),
      ("error", .obj [("code", .num (-32601)), ("message", .str "Method not found"),
                      ("data", .obj [("name", other)])])]))

/-- MCPHandler._validate_jsonrpc_message. -/
def validate_jsonrpc_message (message : JVal) : Option String :=
  match message with
  | .obj kvs =>
    let versionOk :=
      match jLookup kvs "jsonrpc" with
      | some (.str s) => s = "2.0"
      | _ => false
    if !versionOk then some "Invalid JSON-RPC version"
    else
      let has_id := (kvs.find? (fun e => e.1 = "id")).isSome
      let has_method := (kvs.find? (fun e => e.1 = "method")).isSome
      let has_result := (kvs.find? (fun e => e.1 = "result")).isSome
      if has_method then none
      else if has_id && has_result then none
      else some "Invalid JSON-RPC message structure"
  | _ => some "Message must be a JSON object"

/-- An HTTP-level response of the MCP endpoint: status and JSON body. -/
structure McpHttpResponse where
  status : Nat
  body : JVal

/-- MCPHandler.handle_request after body reading and JSON parsing: message
validation, dispatch, and the mapping of dispatch outcomes to HTTP
responses (202 acknowledgment for notifications, 200 otherwise, and the
outer `except` turning a raised exception into a `-32603` error). -/
def handle_parsed_message (tools : ToolDict) (message : JVal) : McpHttpResponse :=
  match validate_jsonrpc_message message with
  | some err => ⟨200, create_error_response .null (-32600) err⟩
  | none =>
    match handle_message tools message with
    | .error _ => ⟨200, create_error_response .null (-32603) "Internal error"⟩
    | .ok none => ⟨202, .obj [("status", .str "ok")]⟩
    | .ok (some response) => ⟨200, response⟩

/-- One parameter of an inspected function signature, as seen by
`MCPTool._create_model` / `_generate_schema`: keyword-only parameters are
the "hidden" ones. -/
structure SigParam where
  name : String
  isKeywordOnly : Bool
  hasDefault : Bool
  hasTypeHint : Bool

def hiddenNoDefaultMsg (n : String) : String :=
  "Hidden parameter '" ++ n ++ "' must have a default value. " ++
  "Hidden parameters cannot be required."

def missingHintMsg (n : String) : String :=
  "Parameter '" ++ n ++ "' missing type hint. " ++
  "All parameters must have explicit type annotations."

/-- MCPTool._create_model.  Walks the signature's parameters in order,
raising (`.error`, at construction time) for a keyword-only parameter
without a default or a parameter without a type hint; on success the
model's field list is the full parameter list (hidden ones included). -/
def create_model_fields : List SigParam → Except String (List SigParam)
  | [] => .ok []
  | p :: ps =>
    if p.isKeywordOnly && !p.hasDefault then .error (hiddenNoDefaultMsg p.name)
    else if !p.hasTypeHint then .error (missingHintMsg p.name)
    else (create_model_fields ps).map (p :: ·)

/-- The externally visible schema: `properties` and `required` name lists. -/
structure ToolSchema where
  properties : List String
  required : List String
deriving DecidableEq

/-- MCPTool._generate_schema: the `required` loop skips keyword-only
parameters and keeps those without defaults; the properties filter keeps
non-keyword-only parameters (every parameter is a model field, so the
`param_name in schema["properties"]` membership test succeeds for each). -/
def generate_schema (sig : List SigParam) : ToolSchema :=
  { properties := (sig.filter (fun p => !p.isKeywordOnly)).map (·.name),
    required := (sig.filter (fun p => !p.isKeywordOnly && !p.hasDefault)).map (·.name) }

/-- The dict `execute_code` puts on the queue (its five keys are always
present). -/
structure ChildOutput where
  result : String
  success : Bool
  stdout : String
  stderr : String
  error : Option String

/-- What `queue.get(timeout=timeout)` did: raised `queue.Empty` after the
deadline, or delivered the child's output dict. -/
inductive QueueGet where
  | timedOut
  | delivered (o : ChildOutput)

/-- The state project_eval has computed after the `try/except/else` around
`queue.get` (before rendering): the five result fields plus whether
`process.terminate()` was invoked. -/
structure EvalOutcome where
  result : String
  success : Bool
  stdout : String
  stderr : String
  error_message : Option String
  terminated : Bool
deriving DecidableEq

/-- project_eval's supervision logic.  `timeoutSecondsStr` is the Python
rendering of the float `timeout / 1000` (e.g. "1.0" for `timeout=1000`
milliseconds); float formatting itself is abstracted. -/
def project_eval_outcome (timeoutSecondsStr : String) (got : QueueGet) : EvalOutcome :=
  match got with
  | .timedOut =>
    let result := "Code execution timed out after " ++ timeoutSecondsStr ++ " seconds"
    { result := result, success := false, stdout := "", stderr := "",
      error_message := some result, terminated := true }
  | .delivered o =>
    { result := o.result, success := o.success, stdout := o.stdout,
      stderr := o.stderr, error_message := o.error, terminated := false }

/-- Big-endian 4-byte encoding, as `struct.pack("!L", n)` (callers keep
`n < 2^32`). -/
def be32 (n : Nat) : List Nat :=
  [n / 16777216 % 256, n / 65536 % 256, n / 256 % 256, n % 256]

/-- Big-endian decoding of a 4-byte list. -/
def decodeBe32 : List Nat → Nat
  | [a, b, c, d] => ((a * 256 + b) * 256 + c) * 256 + d
  | _ => 0

/-- UTF-8 bytes of an ASCII string. -/
def asciiBytes (s : String) : List Nat := s.data.map Char.toNat

/-- A type-0 (data) chunk: `struct.pack("!BL", 0, len(data)) + data`. -/
def dataChunk (d : List Nat) : List Nat := 0 :: (be32 d.length ++ d)

/-- The bytes of `json.dumps(\x7b"status": code\x7d)`. -/
def statusJson (code : Int) : String :=
  "\x7b\"status\": " ++ toString code ++ "\x7d"

/-- A type-1 (status) chunk: `struct.pack("!BL", 1, len(j)) + j`. -/
def statusChunk (code : Int) : List Nat :=
  1 :: (be32 (asciiBytes (statusJson code)).length ++ asciiBytes (statusJson code))

/-- The child process behaviour Middleware._execute_command observes:
`subprocess.Popen` raising, or a sequence of non-empty reads of the merged
output stream (each at most the 4096-byte read size) followed by EOF and
an exit status. -/
inductive ProcBehavior where
  | startFailure
  | runs (reads : List (List Nat)) (exit_status : Int)

/-- Middleware._execute_command: one data chunk per successful read, then
exactly one status chunk; if the process could not be started (or any
other exception fires before streaming), only the sentinel 213 status
chunk. -/
def execute_command : ProcBehavior → List (List Nat)
  | .startFailure => [statusChunk 213]
  | .runs reads exit_status => reads.map dataChunk ++ [statusChunk exit_status]

/-- The stripped, non-empty `;`-separated parts of a CSP header value:
`[part.strip() for part in csp_value.split(";") if part.strip()]`. -/
def cspParts (v : List Char) : List (List Char) :=
  ((splitOnChar ';' v).map pyStrip).filter (fun p => p ≠ [])

/-- One loop iteration of modify_csp's parser: a part with a space splits
into directive and source list (`part.split(" ", 1)`), one without becomes
a source-less directive; directive names are lowercased. -/
def parseDirectivePart (part : List Char) : List Char × List Char :=
  match breakAtSpace part with
  | some (directive, sources) => (toLowerS directive, pyStrip sources)
  | none => (toLowerS part, [])

/-- Python dict assignment `d[k] = v`: updates the value in place when the
key exists (keeping its insertion position), appends otherwise. -/
def dictUpsert (k v : List Char) :
    List (List Char × List Char) → List (List Char × List Char)
  | [] => [(k, v)]
  | (k', v') :: rest =>
    if k' = k then (k, v) :: rest else (k', v') :: dictUpsert k v rest

/-- Python `d.get(k)` on the directives dict. -/
def dictFind (d : List (List Char × List Char)) (k : List Char) : Option (List Char) :=
  (d.find? (fun e => e.1 = k)).map (·.2)

/-- Python `d.get(k, dflt)` on the directives dict. -/
def dictGetD (d : List (List Char × List Char)) (k dflt : List Char) : List Char :=
  (dictFind d k).getD dflt

/-- The `directives` dict modify_csp builds from a CSP header value. -/
def parseCsp (v : List Char) : List (List Char × List Char) :=
  (cspParts v).foldl
    (fun d part =>
      let kv := parseDirectivePart part
      dictUpsert kv.1 kv.2 d) []

def scriptSrcKey : List Char := "script-src".data

def ueTok : List Char := "'unsafe-eval'".data

def frameAncestorsKey : List Char := "frame-ancestors".data

/-- The script-src adjustment of modify_csp: append `'unsafe-eval'` to the
(whitespace-normalised) source list when missing, or install a fresh
`script-src 'unsafe-eval'` when the directive is absent or source-less. -/
def ensureUnsafeEvalDir (d : List (List Char × List Char)) :
    List (List Char × List Char) :=
  let script_src := dictGetD d scriptSrcKey []
  if script_src ≠ [] then
    let script_sources := pySplitWs script_src
    if ueTok ∈ script_sources then d
    else dictUpsert scriptSrcKey (joinWith [' '] script_sources ++ ' ' :: ueTok) d
  else dictUpsert scriptSrcKey ueTok d

/-- The reassembly loop of modify_csp: drop `frame-ancestors`, render each
directive with or without sources, join with `"; "`. -/
def renderCsp (d : List (List Char × List Char)) : List Char :=
  joinWith "; ".data
    ((d.filter (fun e => e.1 ≠ frameAncestorsKey)).map
      (fun e => if e.2 ≠ [] then e.1 ++ ' ' :: e.2 else e.1))

/-- modify_csp. -/
def modify_csp (v : List Char) : List Char :=
  renderCsp (ensureUnsafeEvalDir (parseCsp v))

/-- The parsed script-src source list of a CSP value (for stating the
properties of modify_csp). -/
def scriptSources (v : List Char) : List (List Char) :=
  pySplitWs (dictGetD (parseCsp v) scriptSrcKey [])

/-- The head of the list, if any, is not whitespace. -/
def headNonWs : List Char → Bool
  | [] => true
  | c :: _ => !pyIsSpace c

/-- The last element of the list, if any, is not whitespace. -/
def lastNonWs (s : List Char) : Bool := headNonWs s.reverse

/-- Well-formedness of one entry of the directives dict, as the modify_csp
parser produces it: a non-empty lowercase key free of spaces and
semicolons starting with a non-whitespace character (and ending with one
when the source list is empty), and a stripped, semicolon-free value. -/
def WfEntry (e : List Char × List Char) : Prop :=
  e.1 ≠ [] ∧ (∀ c ∈ e.1, c ≠ ' ' ∧ c ≠ ';') ∧ toLowerS e.1 = e.1 ∧
  headNonWs e.1 = true ∧ (e.2 = [] → lastNonWs e.1 = true) ∧
  pyStrip e.2 = e.2 ∧ (∀ c ∈ e.2, c ≠ ';')

/-- Well-formedness of the whole directives dict: entries well-formed and
keys distinct. -/
def WfDict (d : List (List Char × List Char)) : Prop :=
  (∀ e ∈ d, WfEntry e) ∧ (d.map Prod.fst).Nodup

/-- The textual form of one directive as renderCsp emits it. -/
def entryText (e : List Char × List Char) : List Char :=
  if e.2 ≠ [] then e.1 ++ ' ' :: e.2 else e.1

/-- C10: for every request under the mount prefix whose Origin header is
absent or empty, the security gate performs no origin validation: the
empty-string Origin behaves exactly like a missing one, and the outcome
is decided solely by the remote-address check (403 only for a
disallowed address). -/
theorem C10_empty_origin_like_missing (parseHostname : String → Option String)
    (cfg : MWConfig) (path ip : String) :
    check_security parseHostname cfg ip (some "") = check_security parseHostname cfg ip none ∧
    check_security parseHostname cfg ip none =
      (if validate_ip cfg ip then none else some ipDenialMsg) ∧
    securityGate parseHostname cfg path ip (some "") =
      securityGate parseHostname cfg path ip none := by
  unfold securityGate check_security
  cases h : validate_ip cfg ip <;> simp [h]

/-- C1 counterexample: the address 127.0.1.1 lies in the IPv4 loopback
block 127.0.0.0/8, yet `_validate_ip` (whose regex fixes the first three
octets) classifies it remote, and with `allow_remote_access` false the
gate rejects the request with 403. -/
theorem C1_counterexample :
    claimIsLocalAddress "127.0.1.1" = true ∧
    validate_ip ⟨false, none⟩ "127.0.1.1" = false ∧
    securityGate (fun _ => none) ⟨false, none⟩ "/tidewave/mcp" "127.0.1.1" none =
      some ⟨403, ipDenialMsg⟩ :=
  ⟨by decide, by decide, by decide⟩

/-- C1 (amended): with `allow_remote_access` false the gate classifies an
address local exactly when it matches `127.0.0.x` (one to three digits in
the last octet only — not all of 127.0.0.0/8), is `::1`, or is
`::ffff:127.0.0.1`; every other address is rejected with HTTP 403 and a
message naming the `allow_remote_access` flag. -/
theorem C1_amended (parseHostname : String → Option String) (cfg : MWConfig)
    (path ip : String) (origin : Option String)
    (hra : cfg.allow_remote_access = false)
    (hpath : pyStartsWith path "/tidewave" = true) :
    validate_ip cfg ip = (matches127 ip || ip = "::1" || ip = "::ffff:127.0.0.1") ∧
    (validate_ip cfg ip = false →
      securityGate parseHostname cfg path ip origin = some ⟨403, ipDenialMsg⟩) ∧
    (∃ pre post : String, ipDenialMsg = pre ++ "allow_remote_access" ++ post) := by
  refine ⟨?_, ?_, ?_⟩
  · by_cases hm : matches127 ip <;> by_cases h1 : ip = "::1" <;>
      by_cases h2 : ip = "::ffff:127.0.0.1" <;> simp [validate_ip, hra, hm, h1, h2]
  · intro hv
    simp [securityGate, hpath, check_security, hv]
  · exact ⟨"For security reasons, Tidewave does not accept remote connections " ++
      "by default.\n\nIf you really want to allow remote connections, " ++
      "configure Tidewave with the `", ": true` option", by decide⟩

/-- C1 amended, instantiated: configuration with remote access disabled,
address 10.0.0.5 on a mounted path. -/
theorem C1_amended_witness :
    (MWConfig.allow_remote_access ⟨false, none⟩ = false) ∧
    (pyStartsWith "/tidewave/mcp" "/tidewave" = true) ∧
    (validate_ip ⟨false, none⟩ "10.0.0.5" =
      (matches127 "10.0.0.5" || "10.0.0.5" = "::1" || "10.0.0.5" = "::ffff:127.0.0.1") ∧
    (validate_ip ⟨false, none⟩ "10.0.0.5" = false →
      securityGate (fun _ => none) ⟨false, none⟩ "/tidewave/mcp" "10.0.0.5" none =
        some ⟨403, ipDenialMsg⟩) ∧
    (∃ pre post : String, ipDenialMsg = pre ++ "allow_remote_access" ++ post)) :=
  ⟨rfl, by decide,
   C1_amended (fun _ => none) ⟨false, none⟩ "/tidewave/mcp" "10.0.0.5" none rfl (by decide)⟩

/-- C2 counterexample: with `allowed_origins` explicitly the empty list
the origin check rejects even 127.0.0.1 (the claim says the empty list
accepts the local-development set), and the gate turns this into an
origin denial. -/
theorem C2_counterexample :
    validate_allowed_origin ⟨false, some []⟩ "127.0.0.1" = false ∧
    check_security (fun _ => some "127.0.0.1") ⟨false, some []⟩ "127.0.0.1"
      (some "http://127.0.0.1") = some (originDenialMsg "127.0.0.1") :=
  ⟨by decide, by decide⟩

/-- C2 (amended): for every (lowercased, as the caller ensures) host:
`["*"]` accepts everything; the explicitly empty list rejects everything
(the local-development default applies only when the key is absent);
with the key absent exactly localhost, its subdomains, 127.0.0.1 and ::1
are accepted; the pattern ".example.com" accepts exactly the bare domain
and its subdomains; patterns match case-insensitively. -/
theorem C2_amended (ra : Bool) (host : String) :
    validate_allowed_origin ⟨ra, some ["*"]⟩ host = true ∧
    validate_allowed_origin ⟨ra, some []⟩ host = false ∧
    validate_allowed_origin ⟨ra, none⟩ host =
      (host = "localhost" || pyEndsWith host ".localhost" ||
       host = "127.0.0.1" || host = "::1") ∧
    validate_allowed_origin ⟨ra, some [".example.com"]⟩ host =
      (host = "example.com" || pyEndsWith host ".example.com") ∧
    validate_allowed_origin ⟨ra, some [".EXAMPLE.Com"]⟩ host =
      validate_allowed_origin ⟨ra, some [".example.com"]⟩ host := by
  refine ⟨?_, ?_, ?_, ?_, ?_⟩
  · simp [validate_allowed_origin]
    exact Or.inl (by decide)
  · simp [validate_allowed_origin]
  · have e1 : pyLower ".localhost" = ".localhost" := by decide
    have e2 : pyLower "127.0.0.1" = "127.0.0.1" := by decide
    have e3 : pyLower "::1" = "::1" := by decide
    have f1 : ({ data := (".localhost" : String).data.tail } : String) = "localhost" := by
      decide
    have f2 : (("." : String) ++ "localhost") = ".localhost" := by decide
    have g1 : pyStartsWith ".localhost" "." = true := by decide
    have g2 : pyStartsWith "127.0.0.1" "." = false := by decide
    have g3 : pyStartsWith "::1" "." = false := by decide
    rw [Bool.eq_iff_iff]
    simp [validate_allowed_origin, e1, e2, e3, f1, f2, g1, g2, g3]
    have habs : host = ".localhost" → pyEndsWith host ".localhost" = true := by
      rintro rfl; decide
    tauto
  · have e1 : pyLower ".example.com" = ".example.com" := by decide
    have f1 : ({ data := (".example.com" : String).data.tail } : String) = "example.com" := by
      decide
    have f2 : (("." : String) ++ "example.com") = ".example.com" := by decide
    have g1 : pyStartsWith ".example.com" "." = true := by decide
    rw [Bool.eq_iff_iff]
    simp [validate_allowed_origin, e1, f1, f2, g1]
    have habs : host = ".example.com" → pyEndsWith host ".example.com" = true := by
      rintro rfl; decide
    tauto
  · have e1 : pyLower ".EXAMPLE.Com" = ".example.com" := by decide
    have e2 : pyLower ".example.com" = ".example.com" := by decide
    simp [validate_allowed_origin, e1, e2]

/-- C4 counterexample: the message with method "nonexistent/method" and no
id is a valid JSON-RPC notification, yet the handler answers it with an
HTTP 200 response whose JSON body is a JSON-RPC error object (rather than
the bodiless 202 acknowledgment the claim promises for every
notification). -/
theorem C4_counterexample :
    validate_jsonrpc_message
      (JVal.obj [("jsonrpc", .str "2.0"), ("method", .str "nonexistent/method")]) = none ∧
    jHasKey (JVal.obj [("jsonrpc", .str "2.0"), ("method", .str "nonexistent/method")])
      "method" = true ∧
    jHasKey (JVal.obj [("jsonrpc", .str "2.0"), ("method", .str "nonexistent/method")])
      "id" = false ∧
    (handle_parsed_message []
      (JVal.obj [("jsonrpc", .str "2.0"), ("method", .str "nonexistent/method")])).status
      = 200 ∧
    jHasKey (handle_parsed_message []
      (JVal.obj [("jsonrpc", .str "2.0"), ("method", .str "nonexistent/method")])).body
      "error" = true :=
  ⟨rfl, rfl, rfl, rfl, rfl⟩

/-- C4 (amended): only the two notification methods the dispatcher knows
("notifications/initialized" and "notifications/cancelled") produce no
JSON-RPC body: for them the handler answers 202 with the minimal payload
\x7b"status": "ok"\x7d; any other id-less message is dispatched like a
request with a null id and may produce a JSON-RPC response or error
body. -/
theorem C4_amended (tools : ToolDict) (kvs : List (String × JVal))
    (hv : validate_jsonrpc_message (JVal.obj kvs) = none)
    (hm : pyDictGet (JVal.obj kvs) "method" = .str "notifications/initialized" ∨
          pyDictGet (JVal.obj kvs) "method" = .str "notifications/cancelled") :
    handle_parsed_message tools (JVal.obj kvs) = ⟨202, .obj [("status", .str "ok")]⟩ := by
  rcases hm with h | h <;> simp only [handle_parsed_message, hv, handle_message, h]

/-- C4 amended, instantiated at the initialized notification. -/
theorem C4_amended_witness :
    validate_jsonrpc_message
      (JVal.obj [("jsonrpc", .str "2.0"), ("method", .str "notifications/initialized")])
      = none ∧
    handle_parsed_message []
      (JVal.obj [("jsonrpc", .str "2.0"), ("method", .str "notifications/initialized")]) =
      ⟨202, .obj [("status", .str "ok")]⟩ :=
  ⟨rfl, C4_amended [] [("jsonrpc", .str "2.0"), ("method", .str "notifications/initialized")]
    rfl (Or.inl rfl)⟩

/-- C7 counterexample: the empty string is a present protocolVersion that
is lexicographically less than the supported version "2025-03-26", yet
Python's `if not client_version` truthiness test answers it with the
-32602 message "Protocol version is required" — not a message beginning
"Unsupported protocol version" as the claim requires for every
present-but-older version. -/
theorem C7_counterexample :
    jLookup [("protocolVersion", JVal.str "")] "protocolVersion" = some (.str "") ∧
    pyStrLt "" PROTOCOL_VERSION = true ∧
    handle_init [] JVal.null (JVal.obj [("protocolVersion", JVal.str "")]) =
      .ok (create_error_response JVal.null (-32602) "Protocol version is required") ∧
    pyStartsWith "Protocol version is required" "Unsupported protocol version" = false :=
  ⟨rfl, by decide, rfl, by decide⟩

/-- C7 (amended): the initialize handler rejects an absent — or falsy,
in particular empty-string — protocolVersion with -32602 "Protocol
version is required"; rejects a present, non-empty, lexicographically
older version with -32602 and a message starting "Unsupported protocol
version"; and otherwise returns the server's protocol version,
capabilities, server identity and exactly the tool list that tools/list
returns. -/
theorem C7_init (tools : ToolDict) (request_id : JVal)
    (pk : List (String × JVal)) :
    (jLookup pk "protocolVersion" = none →
      handle_init tools request_id (JVal.obj pk) =
        .ok (create_error_response request_id (-32602) "Protocol version is required")) ∧
    (jLookup pk "protocolVersion" = some (.str "") →
      handle_init tools request_id (JVal.obj pk) =
        .ok (create_error_response request_id (-32602) "Protocol version is required")) ∧
    (∀ v : String, jLookup pk "protocolVersion" = some (.str v) → v ≠ "" →
      pyStrLt v PROTOCOL_VERSION = true →
      handle_init tools request_id (JVal.obj pk) =
        .ok (create_error_response request_id (-32602) unsupportedVersionMsg)) ∧
    pyStartsWith unsupportedVersionMsg "Unsupported protocol version" = true ∧
    (∀ v : String, jLookup pk "protocolVersion" = some (.str v) →
      pyStrLt v PROTOCOL_VERSION = false →
      handle_init tools request_id (JVal.obj pk) =
        .ok (.obj [("jsonrpc", .str "2.0"), ("id", request_id),
          ("result", .obj [
            ("protocolVersion", .str PROTOCOL_VERSION),
            ("capabilities", .obj [("tools", .obj [("listChanged", .bool false)])]),
            ("serverInfo", .obj [("name", .str "Python MCP Server"),
                                 ("version", .str MCP_VERSION)]),
            ("tools", get_tool_list tools)])])) ∧
    (∀ id2 p2, handle_list_tools tools id2 p2 =
      .obj [("jsonrpc", .str "2.0"), ("id", id2),
            ("result", .obj [("tools", get_tool_list tools)])]) := by
  refine ⟨?_, ?_, ?_, by decide, ?_, fun id2 p2 => rfl⟩
  · intro h
    simp [handle_init, pyGetE, h, pyTruthy]
  · intro h
    simp [handle_init, pyGetE, h, pyTruthy]
  · intro v h hne hlt
    simp [handle_init, pyGetE, h, pyTruthy, hne, hlt]
  · intro v h hlt
    have hne : v ≠ "" := by
      rintro rfl
      simp [show pyStrLt "" PROTOCOL_VERSION = true from by decide] at hlt
    simp [handle_init, pyGetE, h, pyTruthy, hne, hlt]

/-- C7 amended, instantiated: a missing version, the falsy empty-string
version, the older version 2024-11-05, and the supported version
itself. -/
theorem C7_init_witness :
    (handle_init [] JVal.null (JVal.obj []) =
      .ok (create_error_response JVal.null (-32602) "Protocol version is required")) ∧
    (handle_init [] JVal.null (JVal.obj [("protocolVersion", .str "")]) =
      .ok (create_error_response JVal.null (-32602) "Protocol version is required")) ∧
    (handle_init [] JVal.null
      (JVal.obj [("protocolVersion", .str "2024-11-05")]) =
      .ok (create_error_response JVal.null (-32602) unsupportedVersionMsg)) ∧
    (handle_init [] JVal.null
      (JVal.obj [("protocolVersion", .str "2025-03-26")]) =
      .ok (.obj [("jsonrpc", .str "2.0"), ("id", JVal.null),
        ("result", .obj [
          ("protocolVersion", .str PROTOCOL_VERSION),
          ("capabilities", .obj [("tools", .obj [("listChanged", .bool false)])]),
          ("serverInfo", .obj [("name", .str "Python MCP Server"),
                               ("version", .str MCP_VERSION)]),
          ("tools", get_tool_list [])])])) :=
  ⟨(C7_init [] JVal.null []).1 rfl,
   (C7_init [] JVal.null [("protocolVersion", .str "")]).2.1 rfl,
   (C7_init [] JVal.null [("protocolVersion", .str "2024-11-05")]).2.2.1
     "2024-11-05" rfl (by decide) (by decide),
   (C7_init [] JVal.null [("protocolVersion", .str "2025-03-26")]).2.2.2.2.1
     "2025-03-26" rfl (by decide)⟩

theorem create_model_fields_ok_inv {sig l : List SigParam}
    (h : create_model_fields sig = .ok l) :
    ∀ p ∈ sig, (p.isKeywordOnly = true → p.hasDefault = true) ∧ p.hasTypeHint = true := by
  induction sig generalizing l with
  | nil => simp
  | cons q qs ih =>
    simp only [create_model_fields] at h
    split at h
    · exact absurd h (by simp)
    · split at h
      · exact absurd h (by simp)
      · rename_i h1 h2
        intro p hp
        rcases List.mem_cons.mp hp with rfl | hmem
        · refine ⟨fun hk => ?_, by by_contra hd; simp [hd] at h2⟩
          by_contra hd
          simp [hk, hd] at h1
        · match hq : create_model_fields qs with
          | .ok l' => exact ih hq p hmem
          | .error m => rw [hq] at h; exact absurd h (by simp [Except.map])

/-- C5: a function with a hidden (keyword-only) parameter lacking a
default fails at model construction time with an error; and for every
signature the generated schema excludes every hidden parameter from both
the properties and the required lists. -/
theorem C5_hidden_params (sig : List SigParam) :
    ((∃ p ∈ sig, p.isKeywordOnly = true ∧ p.hasDefault = false) →
      ∃ msg, create_model_fields sig = .error msg) ∧
    ((sig.map (·.name)).Nodup →
      ∀ p ∈ sig, p.isKeywordOnly = true →
        p.name ∉ (generate_schema sig).properties ∧
        p.name ∉ (generate_schema sig).required) := by
  constructor
  · intro hex
    match he : create_model_fields sig with
    | .error m => exact ⟨m, rfl⟩
    | .ok l =>
      obtain ⟨p, hp, hk, hd⟩ := hex
      have := (create_model_fields_ok_inv he p hp).1 hk
      rw [this] at hd
      exact absurd hd (by simp)
  · intro hnd p hp hk
    constructor
    · intro hmem
      simp only [generate_schema, List.mem_map] at hmem
      obtain ⟨q, hq, hqn⟩ := hmem
      have hq' := List.mem_filter.mp hq
      have : q = p := List.inj_on_of_nodup_map hnd hq'.1 hp hqn
      subst this
      simp [hk] at hq'
    · intro hmem
      simp only [generate_schema, List.mem_map] at hmem
      obtain ⟨q, hq, hqn⟩ := hmem
      have hq' := List.mem_filter.mp hq
      have : q = p := List.inj_on_of_nodup_map hnd hq'.1 hp hqn
      subst this
      simp [hk] at hq'

/-- C5, instantiated: a hidden parameter without a default is rejected at
construction, and a registered hidden parameter is invisible in the
schema. -/
theorem C5_hidden_params_witness :
    (∃ msg, create_model_fields
      [{ name := "opts", isKeywordOnly := true, hasDefault := false,
         hasTypeHint := true }] = .error msg) ∧
    ("opts" ∉ (generate_schema
      [{ name := "msg", isKeywordOnly := false, hasDefault := false, hasTypeHint := true },
       { name := "opts", isKeywordOnly := true, hasDefault := true,
         hasTypeHint := true }]).properties ∧
     "opts" ∉ (generate_schema
      [{ name := "msg", isKeywordOnly := false, hasDefault := false, hasTypeHint := true },
       { name := "opts", isKeywordOnly := true, hasDefault := true,
         hasTypeHint := true }]).required) :=
  ⟨(C5_hidden_params _).1
    ⟨_, List.mem_cons_self _ _, rfl, rfl⟩,
   (C5_hidden_params _).2 (by simp)
     _ (List.mem_cons.mpr (Or.inr (List.mem_cons_self _ _))) rfl⟩

/-- C8: every emitted data chunk is a 1-byte type 0, a 4-byte big-endian
length, then exactly that many raw bytes; the stream ends with exactly
one type-1 chunk whose payload is the JSON object with the exit status;
and a start failure produces exactly the single sentinel status-213
chunk. -/
theorem C8_stream_framing (reads : List (List Nat)) (exit_status : Int)
    (hlen : ∀ r ∈ reads, r.length ≤ 4096) :
    execute_command (.runs reads exit_status) =
      reads.map dataChunk ++ [statusChunk exit_status] ∧
    (∀ r ∈ reads, dataChunk r = 0 :: (be32 r.length ++ r) ∧
      (be32 r.length).length = 4 ∧ decodeBe32 (be32 r.length) = r.length) ∧
    statusChunk exit_status =
      1 :: (be32 (asciiBytes (statusJson exit_status)).length ++
        asciiBytes (statusJson exit_status)) ∧
    (execute_command (.runs reads exit_status)).countP
      (fun c => decide (c.head? = some 1)) = 1 ∧
    (execute_command (.runs reads exit_status)).getLast? =
      some (statusChunk exit_status) ∧
    execute_command .startFailure = [statusChunk 213] ∧
    statusJson 213 = "\x7b\"status\": 213\x7d" := by
  refine ⟨rfl, ?_, rfl, ?_, ?_, rfl, rfl⟩
  · intro r hr
    refine ⟨rfl, rfl, ?_⟩
    have := hlen r hr
    simp only [be32, decodeBe32]
    omega
  · unfold execute_command
    rw [List.countP_append]
    have h0 : (reads.map dataChunk).countP (fun c => decide (c.head? = some 1)) = 0 := by
      rw [List.countP_eq_zero]
      intro c hc
      obtain ⟨r, _, rfl⟩ := List.mem_map.mp hc
      simp [dataChunk]
    rw [h0]
    simp [statusChunk]
  · unfold execute_command
    simp

/-- C8, instantiated: one 6-byte read ("hello\n") with exit status 0. -/
theorem C8_stream_framing_witness :
    execute_command (.runs [[104, 101, 108, 108, 111, 10]] 0) =
      [[104, 101, 108, 108, 111, 10]].map dataChunk ++ [statusChunk 0] ∧
    dataChunk [104, 101, 108, 108, 111, 10] =
      [0, 0, 0, 0, 6, 104, 101, 108, 108, 111, 10] ∧
    statusChunk 0 = 1 :: (be32 (asciiBytes (statusJson 0)).length ++
      asciiBytes (statusJson 0)) ∧
    execute_command .startFailure = [statusChunk 213] :=
  ⟨(C8_stream_framing [[104, 101, 108, 108, 111, 10]] 0 (by decide)).1,
   by decide,
   (C8_stream_framing [[104, 101, 108, 108, 111, 10]] 0 (by decide)).2.2.1,
   by decide⟩

/-- C9 counterexample: on a timeout with a 1-second deadline the recorded
error message is "Code execution timed out after 1.0 seconds" — not equal
to "timed out after <timeout>" under any reading of the placeholder (the
code prepends "Code execution" and appends the unit). -/
theorem C9_counterexample :
    (project_eval_outcome "1.0" QueueGet.timedOut).error_message =
      some "Code execution timed out after 1.0 seconds" ∧
    (project_eval_outcome "1.0" QueueGet.timedOut).error_message ≠
      some "timed out after 1.0" ∧
    (project_eval_outcome "1.0" QueueGet.timedOut).error_message ≠
      some "timed out after 1000" ∧
    (project_eval_outcome "1.0" QueueGet.timedOut).error_message ≠
      some "timed out after 1.0 seconds" :=
  ⟨by decide, by decide, by decide, by decide⟩

/-- C9 (amended): when the child delivers nothing within the deadline the
supervisor terminates it and returns success = false with the error
message "Code execution timed out after <timeout-in-seconds> seconds",
which in particular contains "timed out"; no exception propagates (the
outcome is a plain value). -/
theorem C9_amended (timeoutSecondsStr : String) :
    (project_eval_outcome timeoutSecondsStr .timedOut).success = false ∧
    (project_eval_outcome timeoutSecondsStr .timedOut).terminated = true ∧
    (project_eval_outcome timeoutSecondsStr .timedOut).error_message =
      some ("Code execution timed out after " ++ timeoutSecondsStr ++ " seconds") ∧
    (∃ pre post : String,
      (project_eval_outcome timeoutSecondsStr .timedOut).error_message =
        some (pre ++ ("timed out" ++ post))) := by
  refine ⟨rfl, rfl, rfl,
    ⟨"Code execution ", " after " ++ (timeoutSecondsStr ++ " seconds"), ?_⟩⟩
  simp only [project_eval_outcome]
  have h : ("Code execution timed out after " : String).data =
      ("Code execution " : String).data ++ (("timed out" : String).data ++
      (" after " : String).data) := by decide
  apply congrArg
  apply String.ext
  simp [String.data_append, h]

theorem lowerChar_cases (c : Char) :
    lowerChar c = c ∨ lowerChar c ∈
      ['a','b','c','d','e','f','g','h','i','j','k','l','m',
       'n','o','p','q','r','s','t','u','v','w','x','y','z'] := by
  unfold lowerChar
  repeat' split
  all_goals first | (left; rfl) | (right; decide)

theorem lowerChar_idem (c : Char) : lowerChar (lowerChar c) = lowerChar c := by
  rcases lowerChar_cases c with h | h
  · simp only [h]
  · exact (show ∀ d ∈ ['a','b','c','d','e','f','g','h','i','j','k','l','m',
      'n','o','p','q','r','s','t','u','v','w','x','y','z'], lowerChar d = d from by decide)
      _ h

theorem toLowerS_idem (s : List Char) : toLowerS (toLowerS s) = toLowerS s := by
  induction s with
  | nil => rfl
  | cons c cs ih =>
    simp only [toLowerS, List.map_cons] at ih ⊢
    rw [lowerChar_idem]
    exact congrArg _ ih

theorem lowerChar_ne_space {c : Char} (h : c ≠ ' ') : lowerChar c ≠ ' ' := by
  rcases lowerChar_cases c with he | he
  · rw [he]; exact h
  · exact (show ∀ d ∈ ['a','b','c','d','e','f','g','h','i','j','k','l','m',
      'n','o','p','q','r','s','t','u','v','w','x','y','z'], d ≠ ' ' from by decide) _ he

theorem lowerChar_ne_semi {c : Char} (h : c ≠ ';') : lowerChar c ≠ ';' := by
  rcases lowerChar_cases c with he | he
  · rw [he]; exact h
  · exact (show ∀ d ∈ ['a','b','c','d','e','f','g','h','i','j','k','l','m',
      'n','o','p','q','r','s','t','u','v','w','x','y','z'], d ≠ ';' from by decide) _ he

theorem pyIsSpace_lowerChar {c : Char} (h : pyIsSpace c = false) :
    pyIsSpace (lowerChar c) = false := by
  rcases lowerChar_cases c with he | he
  · rw [he]; exact h
  · exact (show ∀ d ∈ ['a','b','c','d','e','f','g','h','i','j','k','l','m',
      'n','o','p','q','r','s','t','u','v','w','x','y','z'], pyIsSpace d = false from by decide)
      _ he

theorem mem_stripL {a : Char} {s : List Char} (h : a ∈ stripL s) : a ∈ s :=
  (List.dropWhile_sublist pyIsSpace).mem h

theorem mem_pyStrip {a : Char} {s : List Char} (h : a ∈ pyStrip s) : a ∈ s := by
  unfold pyStrip stripR at h
  have h1 : a ∈ (stripL s).reverse.dropWhile pyIsSpace := List.mem_reverse.mp h
  have h2 : a ∈ (stripL s).reverse := (List.dropWhile_sublist pyIsSpace).mem h1
  exact mem_stripL (List.mem_reverse.mp h2)

theorem mem_dropWhile_of_not {a : Char} {p : Char → Bool} {l : List Char}
    (ha : a ∈ l) (hp : p a = false) : a ∈ l.dropWhile p := by
  rw [← List.takeWhile_append_dropWhile (p := p) (l := l)] at ha
  rcases List.mem_append.mp ha with h1 | h1
  · exact absurd (List.mem_takeWhile_imp h1) (by simp [hp])
  · exact h1

theorem headNonWs_dropWhile (s : List Char) :
    headNonWs (s.dropWhile pyIsSpace) = true := by
  induction s with
  | nil => rfl
  | cons c cs ih =>
    by_cases h : pyIsSpace c
    · simpa [List.dropWhile_cons, h] using ih
    · simp_all [List.dropWhile_cons, headNonWs]

theorem headNonWs_stripL (s : List Char) : headNonWs (stripL s) = true :=
  headNonWs_dropWhile s

theorem lastNonWs_stripR (s : List Char) : lastNonWs (stripR s) = true := by
  unfold lastNonWs stripR
  rw [List.reverse_reverse]
  exact headNonWs_dropWhile s.reverse

theorem headNonWs_stripR {s : List Char} (h : headNonWs s = true) :
    headNonWs (stripR s) = true := by
  cases s with
  | nil => rfl
  | cons c t =>
    have hc : pyIsSpace c = false := by simpa [headNonWs] using h
    unfold stripR
    rw [List.reverse_cons, List.dropWhile_append]
    split
    · simp_all [List.dropWhile_cons, headNonWs]
    · simp [headNonWs, hc]

theorem pyStrip_headNonWs (s : List Char) : headNonWs (pyStrip s) = true :=
  headNonWs_stripR (headNonWs_stripL s)

theorem pyStrip_lastNonWs (s : List Char) : lastNonWs (pyStrip s) = true :=
  lastNonWs_stripR (stripL s)

theorem pyStrip_eq_self {s : List Char} (h1 : headNonWs s = true)
    (h2 : lastNonWs s = true) : pyStrip s = s := by
  have hL : stripL s = s := by
    cases s with
    | nil => rfl
    | cons c t =>
      have hc : pyIsSpace c = false := by simpa [headNonWs] using h1
      simp [stripL, List.dropWhile_cons, hc]
  have hR : stripR s = s := by
    unfold stripR
    rcases hrev : s.reverse with _ | ⟨c, t⟩
    · simpa using congrArg List.reverse hrev
    · have hc : pyIsSpace c = false := by
        have h3 := h2
        unfold lastNonWs at h3
        rw [hrev] at h3
        simpa [headNonWs] using h3
      rw [List.dropWhile_cons, hc]
      simpa using congrArg List.reverse hrev.symm
  unfold pyStrip
  rw [hL, hR]

theorem pyStrip_idem (s : List Char) : pyStrip (pyStrip s) = pyStrip s :=
  pyStrip_eq_self (pyStrip_headNonWs s) (pyStrip_lastNonWs s)

theorem pyStrip_ne_nil {a : Char} {s : List Char} (ha : a ∈ s)
    (hna : pyIsSpace a = false) : pyStrip s ≠ [] := by
  have h1 : a ∈ stripL s := mem_dropWhile_of_not ha hna
  have h2 : a ∈ (stripL s).reverse.dropWhile pyIsSpace :=
    mem_dropWhile_of_not (List.mem_reverse.mpr h1) hna
  have h3 : a ∈ pyStrip s := by
    unfold pyStrip stripR
    exact List.mem_reverse.mpr h2
  exact List.ne_nil_of_mem h3

theorem pyStrip_eq_nil_all_ws {s : List Char} (h : pyStrip s = []) :
    ∀ a ∈ s, pyIsSpace a = true := by
  intro a ha
  by_contra hn
  exact pyStrip_ne_nil ha (by simpa using hn) h

theorem headNonWs_append {l l' : List Char} (h : l ≠ []) :
    headNonWs (l ++ l') = headNonWs l := by
  cases l with
  | nil => exact absurd rfl h
  | cons c t => simp [headNonWs]

theorem lastNonWs_append (xs ys : List Char) (h : ys ≠ []) :
    lastNonWs (xs ++ ys) = lastNonWs ys := by
  unfold lastNonWs
  rw [List.reverse_append]
  exact headNonWs_append (by simpa using h)

theorem splitOnChar_ne_nil (c : Char) (s : List Char) : splitOnChar c s ≠ [] := by
  induction s with
  | nil => simp [splitOnChar]
  | cons a t ih =>
    simp only [splitOnChar]
    split
    · simp
    · split
      · simp
      · simp

theorem mem_splitOnChar_not_sep {c : Char} {s : List Char} :
    ∀ p ∈ splitOnChar c s, c ∉ p := by
  induction s with
  | nil => intro p hp; simp [splitOnChar] at hp; simp [hp]
  | cons a t ih =>
    intro p hp
    simp only [splitOnChar] at hp
    split at hp
    · rcases List.mem_cons.mp hp with rfl | h
      · simp
      · exact ih p h
    · rename_i hac
      rcases hsp : splitOnChar c t with _ | ⟨r, rs⟩
      · exact absurd hsp (splitOnChar_ne_nil c t)
      · rw [hsp] at hp
        rcases List.mem_cons.mp hp with rfl | h
        · intro hmem
          rcases List.mem_cons.mp hmem with rfl | h2
          · exact hac rfl
          · exact ih r (by simp [hsp]) h2
        · exact ih p (by simp [hsp, h])

theorem splitOnChar_append_no_sep {c : Char} {xs ys r : List Char} {rs : List (List Char)}
    (hx : c ∉ xs) (hys : splitOnChar c ys = r :: rs) :
    splitOnChar c (xs ++ ys) = (xs ++ r) :: rs := by
  induction xs with
  | nil => simpa using hys
  | cons a t ih =>
    have ha : ¬(a = c) := fun he => hx (he ▸ List.mem_cons_self a t)
    have ht : c ∉ t := fun hm => hx (List.mem_cons_of_mem a hm)
    simp only [List.cons_append, splitOnChar, ha, if_false, List.append_eq, ih ht]

theorem breakAtSpace_none {s : List Char} : breakAtSpace s = none ↔ ' ' ∉ s := by
  induction s with
  | nil => simp [breakAtSpace]
  | cons c t ih =>
    simp only [breakAtSpace]
    by_cases hc : c = ' '
    · subst hc; simp
    · simp [hc, Option.map_eq_none', ih, Ne.symm hc]

theorem breakAtSpace_some {s a b : List Char} (h : breakAtSpace s = some (a, b)) :
    s = a ++ ' ' :: b ∧ ' ' ∉ a := by
  induction s generalizing a b with
  | nil => simp [breakAtSpace] at h
  | cons c t ih =>
    simp only [breakAtSpace] at h
    by_cases hc : c = ' '
    · subst hc
      simp only [if_pos rfl, Option.some.injEq, Prod.mk.injEq] at h
      obtain ⟨rfl, rfl⟩ := h
      simp
    · simp only [hc, if_false, Option.map_eq_some'] at h
      obtain ⟨⟨a', b'⟩, hp, he⟩ := h
      obtain ⟨he1, he2⟩ := Prod.mk.injEq .. ▸ he
      obtain ⟨hs, hna⟩ := ih hp
      subst he2
      constructor
      · rw [← he1, hs]; simp
      · rw [← he1]
        intro hm
        rcases List.mem_cons.mp hm with h1 | h1
        · exact hc h1.symm
        · exact hna h1

theorem breakAtSpace_prepend {k v : List Char} (hk : ' ' ∉ k) :
    breakAtSpace (k ++ ' ' :: v) = some (k, v) := by
  induction k with
  | nil => simp [breakAtSpace]
  | cons c t ih =>
    have hc : ¬(c = ' ') := fun he => hk (he ▸ List.mem_cons_self c t)
    have ht : ' ' ∉ t := fun hm => hk (List.mem_cons_of_mem c hm)
    simp [breakAtSpace, hc, ih ht]

theorem takeWord_append_nonws {w r : List Char} (hw : ∀ a ∈ w, pyIsSpace a = false) :
    takeWord (w ++ r) = (w ++ (takeWord r).1, (takeWord r).2) := by
  induction w with
  | nil => simp
  | cons c t ih =>
    have hc : pyIsSpace c = false := hw c (List.mem_cons_self c t)
    have ht : ∀ a ∈ t, pyIsSpace a = false := fun a ha => hw a (List.mem_cons_of_mem c ha)
    simp [takeWord, hc, ih ht]

theorem takeWord_eq_append (s : List Char) : (takeWord s).1 ++ (takeWord s).2 = s := by
  induction s with
  | nil => rfl
  | cons c t ih =>
    simp only [takeWord]
    split
    · simp
    · simpa using ih

theorem takeWord_fst_nonws (s : List Char) :
    ∀ a ∈ (takeWord s).1, pyIsSpace a = false := by
  induction s with
  | nil => simp [takeWord]
  | cons c t ih =>
    simp only [takeWord]
    split
    · simp
    · rename_i hc
      intro a ha
      rcases List.mem_cons.mp (by simpa using ha) with rfl | h
      · simpa using hc
      · exact ih a h

theorem pySplitWs_cons_space {c : Char} {s : List Char} (h : pyIsSpace c = true) :
    pySplitWs (c :: s) = pySplitWs s := by
  rw [pySplitWs]
  simp [h]

theorem pySplitWs_word_append {w t : List Char}
    (hw : ∀ a ∈ w, pyIsSpace a = false) (hne : w ≠ []) :
    pySplitWs (w ++ ' ' :: t) = w :: pySplitWs t := by
  cases w with
  | nil => exact absurd rfl hne
  | cons c u =>
    have hc : pyIsSpace c = false := hw c (List.mem_cons_self c u)
    have hu : ∀ a ∈ u, pyIsSpace a = false := fun a ha => hw a (List.mem_cons_of_mem c ha)
    have htw : takeWord (' ' :: t) = ([], ' ' :: t) := by
      rw [takeWord, if_pos (by decide)]
    have h2 : takeWord (u ++ ' ' :: t) = (u, ' ' :: t) := by
      rw [takeWord_append_nonws hu, htw]
      simp
    rw [List.cons_append, pySplitWs, if_neg (by simp [hc]), h2]
    simp [pySplitWs_cons_space (show pyIsSpace ' ' = true from rfl)]

theorem pySplitWs_word {w : List Char}
    (hw : ∀ a ∈ w, pyIsSpace a = false) (hne : w ≠ []) :
    pySplitWs w = [w] := by
  cases w with
  | nil => exact absurd rfl hne
  | cons c u =>
    have hc : pyIsSpace c = false := hw c (List.mem_cons_self c u)
    have hu : ∀ a ∈ u, pyIsSpace a = false := fun a ha => hw a (List.mem_cons_of_mem c ha)
    have h1 : takeWord u = (u, []) := by
      have h0 := takeWord_append_nonws (w := u) (r := ([] : List Char)) hu
      simpa [takeWord] using h0
    rw [pySplitWs, if_neg (by simp [hc]), h1]
    simp [pySplitWs]

theorem joinWith_cons {sep x : List Char} {xs : List (List Char)} (h : xs ≠ []) :
    joinWith sep (x :: xs) = x ++ sep ++ joinWith sep xs := by
  cases xs with
  | nil => exact absurd rfl h
  | cons y t => rfl

theorem joinWith_append_last (sep : List Char) (xs : List (List Char)) (y : List Char) :
    joinWith sep (xs ++ [y]) = if xs.isEmpty then y else joinWith sep xs ++ sep ++ y := by
  induction xs with
  | nil => simp [joinWith]
  | cons x t ih =>
    cases t with
    | nil => simp [joinWith]
    | cons z u =>
      have h1 : joinWith sep (x :: (z :: u ++ [y])) = x ++ sep ++ joinWith sep (z :: u ++ [y]) :=
        joinWith_cons (by simp)
      have h2 : joinWith sep (x :: z :: u) = x ++ sep ++ joinWith sep (z :: u) :=
        joinWith_cons (by simp)
      rw [List.cons_append, h1, ih, h2]
      simp

theorem pySplitWs_join {ws : List (List Char)}
    (h : ∀ w ∈ ws, w ≠ [] ∧ ∀ a ∈ w, pyIsSpace a = false) :
    pySplitWs (joinWith [' '] ws) = ws := by
  induction ws with
  | nil => simp [joinWith, pySplitWs]
  | cons w t ih =>
    cases t with
    | nil =>
      have hw := h w (List.mem_cons_self w [])
      exact pySplitWs_word hw.2 hw.1
    | cons y u =>
      have hw := h w (List.mem_cons_self w (y :: u))
      have ht : ∀ v ∈ y :: u, v ≠ [] ∧ ∀ a ∈ v, pyIsSpace a = false :=
        fun v hv => h v (List.mem_cons_of_mem w hv)
      rw [joinWith_cons (by simp)]
      have : w ++ [' '] ++ joinWith [' '] (y :: u) = w ++ ' ' :: joinWith [' '] (y :: u) := by
        simp
      rw [this, pySplitWs_word_append hw.2 hw.1, ih ht]

theorem mem_joinWith {sep : List Char} {xs : List (List Char)} {a : Char}
    (h : a ∈ joinWith sep xs) : a ∈ sep ∨ ∃ x ∈ xs, a ∈ x := by
  induction xs with
  | nil => simp [joinWith] at h
  | cons x t ih =>
    cases t with
    | nil =>
      right
      exact ⟨x, by simp, by simpa [joinWith] using h⟩
    | cons y u =>
      rw [joinWith_cons (by simp)] at h
      rcases List.mem_append.mp h with h1 | h1
      · rcases List.mem_append.mp h1 with h2 | h2
        · exact Or.inr ⟨x, by simp, h2⟩
        · exact Or.inl h2
      · rcases ih h1 with h2 | ⟨z, hz, haz⟩
        · exact Or.inl h2
        · exact Or.inr ⟨z, List.mem_cons_of_mem x hz, haz⟩

theorem pySplitWs_words (s : List Char) :
    ∀ w ∈ pySplitWs s, (w ≠ [] ∧ ∀ a ∈ w, pyIsSpace a = false ∧ a ∈ s) := by
  induction s using pySplitWs.induct with
  | case1 => simp [pySplitWs]
  | case2 c cs hc ih =>
    intro w hw
    rw [pySplitWs_cons_space (by simpa using hc)] at hw
    obtain ⟨h1, h2⟩ := ih w hw
    exact ⟨h1, fun a ha => ⟨(h2 a ha).1, List.mem_cons_of_mem c (h2 a ha).2⟩⟩
  | case3 c cs hc ih =>
    intro w hw
    rw [pySplitWs] at hw
    simp only [hc] at hw
    rw [if_neg (by simp [hc])] at hw
    rcases List.mem_cons.mp hw with rfl | hmem
    · refine ⟨by simp, ?_⟩
      intro a ha
      rcases List.mem_cons.mp ha with rfl | h2
      · exact ⟨by simpa using hc, List.mem_cons_self a cs⟩
      · refine ⟨takeWord_fst_nonws cs a h2, ?_⟩
        have : a ∈ (takeWord cs).1 ++ (takeWord cs).2 := List.mem_append.mpr (Or.inl h2)
        rw [takeWord_eq_append] at this
        exact List.mem_cons_of_mem c this
    · obtain ⟨h1, h2⟩ := ih w hmem
      refine ⟨h1, fun a ha => ⟨(h2 a ha).1, ?_⟩⟩
      have : a ∈ (takeWord cs).1 ++ (takeWord cs).2 :=
        List.mem_append.mpr (Or.inr (h2 a ha).2)
      rw [takeWord_eq_append] at this
      exact List.mem_cons_of_mem c this

theorem dictFind_cons (a b k : List Char) (rest : List (List Char × List Char)) :
    dictFind ((a, b) :: rest) k = if a = k then some b else dictFind rest k := by
  simp [dictFind, List.find?]
  split <;> simp_all

theorem dictFind_upsert (k v k' : List Char) (d : List (List Char × List Char)) :
    dictFind (dictUpsert k v d) k' = if k' = k then some v else dictFind d k' := by
  by_cases hkk : k' = k
  · subst hkk
    simp only [if_pos rfl]
    induction d with
    | nil => simp [dictUpsert, dictFind_cons]
    | cons e rest ih =>
      obtain ⟨ka, va⟩ := e
      by_cases h1 : ka = k'
      · subst h1; simp [dictUpsert, dictFind_cons]
      · simp [dictUpsert, h1, dictFind_cons, ih]
  · simp only [if_neg hkk]
    have hsym : ¬(k = k') := fun he => hkk he.symm
    induction d with
    | nil => simp [dictUpsert, dictFind_cons, hsym, dictFind, List.find?]
    | cons e rest ih =>
      obtain ⟨ka, va⟩ := e
      by_cases h1 : ka = k
      · subst h1; simp [dictUpsert, dictFind_cons, hsym]
      · by_cases h2 : ka = k' <;> simp [dictUpsert, h1, dictFind_cons, ih, h2, hkk]

theorem dictUpsert_keys (k v : List Char) (d : List (List Char × List Char)) :
    (dictUpsert k v d).map Prod.fst =
      if k ∈ d.map Prod.fst then d.map Prod.fst else d.map Prod.fst ++ [k] := by
  induction d with
  | nil => simp [dictUpsert]
  | cons e rest ih =>
    obtain ⟨ka, va⟩ := e
    by_cases h1 : ka = k
    · subst h1
      simp [dictUpsert]
    · simp only [dictUpsert, if_neg h1, List.map_cons, ih]
      by_cases h2 : k ∈ rest.map Prod.fst <;>
        simp [h2, List.mem_cons, Ne.symm h1]

theorem dictUpsert_of_not_mem {k : List Char} (v : List Char)
    {d : List (List Char × List Char)} (h : k ∉ d.map Prod.fst) :
    dictUpsert k v d = d ++ [(k, v)] := by
  induction d with
  | nil => rfl
  | cons e rest ih =>
    obtain ⟨ka, va⟩ := e
    have h1 : ¬(ka = k) := by
      intro he; exact h (by simp [he])
    have h2 : k ∉ rest.map Prod.fst := fun hm => h (by simp [hm])
    simp [dictUpsert, h1, ih h2]

theorem mem_dictUpsert {e : List Char × List Char} {k v : List Char}
    {d : List (List Char × List Char)} (h : e ∈ dictUpsert k v d) :
    e = (k, v) ∨ e ∈ d := by
  induction d with
  | nil => simpa [dictUpsert] using h
  | cons f rest ih =>
    obtain ⟨ka, va⟩ := f
    by_cases h1 : ka = k
    · subst h1
      rcases List.mem_cons.mp (by simpa [dictUpsert] using h) with h2 | h2
      · exact Or.inl h2
      · exact Or.inr (List.mem_cons_of_mem _ h2)
    · rcases List.mem_cons.mp (by simpa [dictUpsert, h1] using h) with h2 | h2
      · exact Or.inr (by simp [h2])
      · rcases ih h2 with h3 | h3
        · exact Or.inl h3
        · exact Or.inr (List.mem_cons_of_mem _ h3)

theorem dictUpsert_nodup {k v : List Char} {d : List (List Char × List Char)}
    (h : (d.map Prod.fst).Nodup) : ((dictUpsert k v d).map Prod.fst).Nodup := by
  rw [dictUpsert_keys]
  split
  · exact h
  · rename_i hnm
    exact List.nodup_append.mpr ⟨h, List.nodup_singleton k,
      fun a ha hb => hnm (by rwa [List.mem_singleton.mp hb] at ha)⟩

theorem foldl_dictUpsert_eq_append (l acc : List (List Char × List Char))
    (h : ((acc ++ l).map Prod.fst).Nodup) :
    l.foldl (fun d e => dictUpsert e.1 e.2 d) acc = acc ++ l := by
  induction l generalizing acc with
  | nil => simp
  | cons e rest ih =>
    obtain ⟨k, v⟩ := e
    have h' := List.nodup_append.mp (by simpa using h)
    have hk : k ∉ acc.map Prod.fst :=
      fun hm => h'.2.2 hm (List.mem_cons_self _ _)
    have hstep : dictUpsert k v acc = acc ++ [(k, v)] := dictUpsert_of_not_mem v hk
    have h2 : (((acc ++ [(k, v)]) ++ rest).map Prod.fst).Nodup := by
      simpa using h
    calc ((k, v) :: rest).foldl (fun d e => dictUpsert e.1 e.2 d) acc
        = rest.foldl (fun d e => dictUpsert e.1 e.2 d) (acc ++ [(k, v)]) := by
          simp [List.foldl_cons, hstep]
      _ = (acc ++ [(k, v)]) ++ rest := ih (acc ++ [(k, v)]) h2
      _ = acc ++ ((k, v) :: rest) := by simp

theorem headNonWs_toLowerS {s : List Char} (h : headNonWs s = true) :
    headNonWs (toLowerS s) = true := by
  cases s with
  | nil => rfl
  | cons c t =>
    have hc : pyIsSpace c = false := by simpa [headNonWs] using h
    simpa [toLowerS, headNonWs] using pyIsSpace_lowerChar hc

theorem lastNonWs_toLowerS {s : List Char} (h : lastNonWs s = true) :
    lastNonWs (toLowerS s) = true := by
  unfold lastNonWs at h ⊢
  rw [show (toLowerS s).reverse = toLowerS s.reverse by simp [toLowerS]]
  exact headNonWs_toLowerS h

theorem cspParts_props {v : List Char} :
    ∀ p ∈ cspParts v, p ≠ [] ∧ pyStrip p = p ∧ ';' ∉ p := by
  intro p hp
  unfold cspParts at hp
  have h1 := List.of_mem_filter hp
  have h2 := List.mem_of_mem_filter hp
  obtain ⟨raw, hraw, rfl⟩ := List.mem_map.mp h2
  refine ⟨by simpa using h1, pyStrip_idem raw, ?_⟩
  intro hsemi
  exact mem_splitOnChar_not_sep raw hraw (mem_pyStrip hsemi)

theorem parseDirectivePart_wf {part : List Char} (h1 : part ≠ [])
    (h2 : pyStrip part = part) (h3 : ';' ∉ part) :
    WfEntry (parseDirectivePart part) := by
  have hhead : headNonWs part = true := h2 ▸ pyStrip_headNonWs part
  have hlast : lastNonWs part = true := h2 ▸ pyStrip_lastNonWs part
  unfold parseDirectivePart
  rcases hbs : breakAtSpace part with _ | ⟨dir, rest⟩
  · have hns : ' ' ∉ part := breakAtSpace_none.mp hbs
    refine ⟨by simpa [toLowerS] using h1, ?_, toLowerS_idem part, headNonWs_toLowerS hhead,
      fun _ => lastNonWs_toLowerS hlast, rfl, by simp⟩
    intro c hc
    obtain ⟨a, ha, rfl⟩ := List.mem_map.mp hc
    exact ⟨lowerChar_ne_space (fun he => hns (he ▸ ha)),
           lowerChar_ne_semi (fun he => h3 (he ▸ ha))⟩
  · obtain ⟨hpart, hnd⟩ := breakAtSpace_some hbs
    have hdir_ne : dir ≠ [] := by
      rintro rfl
      rw [hpart] at hhead
      simp [headNonWs, pyIsSpace] at hhead
    have hrest_ne : rest ≠ [] := by
      rintro rfl
      rw [hpart] at hlast
      rw [lastNonWs_append dir [' '] (by simp)] at hlast
      simp [lastNonWs, headNonWs, pyIsSpace] at hlast
    have hlast_rest : lastNonWs rest = true := by
      rw [hpart, lastNonWs_append dir (' ' :: rest) (by simp)] at hlast
      unfold lastNonWs at hlast ⊢
      rw [List.reverse_cons] at hlast
      rwa [headNonWs_append (by simpa using hrest_ne)] at hlast
    have hstrip_ne : pyStrip rest ≠ [] := by
      rcases hrev : rest.reverse with _ | ⟨c, t⟩
      · exact absurd (by simpa using congrArg List.reverse hrev) hrest_ne
      · have hc : pyIsSpace c = false := by
          have h4 := hlast_rest
          unfold lastNonWs at h4
          rw [hrev] at h4
          simpa [headNonWs] using h4
        have hcm : c ∈ rest := List.mem_reverse.mp (hrev ▸ List.mem_cons_self c t)
        exact pyStrip_ne_nil hcm hc
    have hhead_dir : headNonWs dir = true := by
      rw [hpart, headNonWs_append hdir_ne] at hhead
      exact hhead
    refine ⟨by simpa [toLowerS] using hdir_ne, ?_, toLowerS_idem dir, headNonWs_toLowerS hhead_dir,
      fun he => absurd he hstrip_ne, pyStrip_idem rest, ?_⟩
    · intro c hc
      obtain ⟨a, ha, rfl⟩ := List.mem_map.mp hc
      refine ⟨lowerChar_ne_space (fun he => hnd (he ▸ ha)),
              lowerChar_ne_semi (fun he => h3 ?_)⟩
      rw [hpart]
      exact List.mem_append.mpr (Or.inl (he ▸ ha))
    · intro c hc
      have hcr : c ∈ rest := mem_pyStrip hc
      intro he
      apply h3
      rw [hpart]
      exact List.mem_append.mpr (Or.inr (List.mem_cons_of_mem _ (he ▸ hcr)))

theorem foldl_upsert_wf {parts : List (List Char)} {d : List (List Char × List Char)}
    (hd : WfDict d) (hp : ∀ part ∈ parts, WfEntry (parseDirectivePart part)) :
    WfDict (parts.foldl
      (fun d part => dictUpsert (parseDirectivePart part).1 (parseDirectivePart part).2 d)
      d) := by
  induction parts generalizing d with
  | nil => exact hd
  | cons part rest ih =>
    simp only [List.foldl_cons]
    refine ih ⟨?_, dictUpsert_nodup hd.2⟩
      (fun q hq => hp q (List.mem_cons_of_mem _ hq))
    intro e he
    rcases mem_dictUpsert he with rfl | hmem
    · simpa using hp part (List.mem_cons_self _ _)
    · exact hd.1 e hmem

theorem parseCsp_wf (v : List Char) : WfDict (parseCsp v) := by
  have h : parseCsp v = (cspParts v).foldl
      (fun d part => dictUpsert (parseDirectivePart part).1 (parseDirectivePart part).2 d)
      [] := by
    unfold parseCsp
    rfl
  rw [h]
  refine foldl_upsert_wf ⟨by simp, by simp⟩ ?_
  intro part hpart
  obtain ⟨h1, h2, h3⟩ := cspParts_props part hpart
  exact parseDirectivePart_wf h1 h2 h3

theorem pyStrip_cons_space (s : List Char) : pyStrip (' ' :: s) = pyStrip s := by
  unfold pyStrip stripL
  rw [List.dropWhile_cons]
  simp [pyIsSpace]

theorem splitOnChar_no_sep {c : Char} {p : List Char} (h : c ∉ p) :
    splitOnChar c p = [p] := by
  have h0 : splitOnChar c ([] : List Char) = [] :: [] := rfl
  have := @splitOnChar_append_no_sep c p [] [] [] h h0
  simpa using this

theorem entryText_props {e : List Char × List Char} (hwf : WfEntry e) :
    pyStrip (entryText e) = entryText e ∧ entryText e ≠ [] ∧ ';' ∉ entryText e ∧
    parseDirectivePart (entryText e) = e := by
  obtain ⟨hk_ne, hk_chars, hk_lower, hk_head, hk_last, hv_strip, hv_chars⟩ := hwf
  have hk_nsp : ' ' ∉ e.1 := fun hm => (hk_chars ' ' hm).1 rfl
  by_cases hv : e.2 = []
  · have het : entryText e = e.1 := by simp [entryText, hv]
    rw [het]
    refine ⟨pyStrip_eq_self hk_head (hk_last hv), hk_ne, ?_, ?_⟩
    · exact fun hm => (hk_chars ';' hm).2 rfl
    · unfold parseDirectivePart
      rw [breakAtSpace_none.mpr hk_nsp, hk_lower]
      exact Prod.ext rfl hv.symm
  · have het : entryText e = e.1 ++ ' ' :: e.2 := by simp [entryText, hv]
    rw [het]
    have hlast2 : lastNonWs (e.1 ++ ' ' :: e.2) = lastNonWs e.2 := by
      rw [lastNonWs_append e.1 (' ' :: e.2) (by simp)]
      unfold lastNonWs
      rw [List.reverse_cons, headNonWs_append (by simpa using hv)]
    refine ⟨?_, by simp, ?_, ?_⟩
    · refine pyStrip_eq_self ?_ ?_
      · rw [headNonWs_append hk_ne]; exact hk_head
      · rw [hlast2, ← hv_strip]; exact pyStrip_lastNonWs e.2
    · intro hm
      rcases List.mem_append.mp hm with h1 | h1
      · exact (hk_chars ';' h1).2 rfl
      · rcases List.mem_cons.mp h1 with h2 | h2
        · exact absurd h2.symm (by decide)
        · exact hv_chars ';' h2 rfl
    · unfold parseDirectivePart
      rw [breakAtSpace_prepend hk_nsp]
      show (toLowerS e.1, pyStrip e.2) = e
      rw [hk_lower, hv_strip]

theorem cspParts_cons_space (x : List Char) :
    ((splitOnChar ';' (' ' :: x)).map pyStrip).filter (fun p => p ≠ []) = cspParts x := by
  rcases hx : splitOnChar ';' x with _ | ⟨r, rs⟩
  · exact absurd hx (splitOnChar_ne_nil ';' x)
  · have hsp : splitOnChar ';' (' ' :: x) = (' ' :: r) :: rs := by
      simp only [splitOnChar, hx]
      rw [if_neg (by decide)]
    unfold cspParts
    rw [hsp, hx, List.map_cons, List.map_cons, pyStrip_cons_space]

theorem cspParts_join {l : List (List Char)}
    (h : ∀ p ∈ l, pyStrip p = p ∧ p ≠ [] ∧ ';' ∉ p) :
    cspParts (joinWith "; ".data l) = l := by
  induction l with
  | nil =>
    rfl
  | cons p t ih =>
    obtain ⟨hps, hpn, hpsemi⟩ := h p (List.mem_cons_self p t)
    cases t with
    | nil =>
      have : joinWith "; ".data [p] = p := rfl
      rw [this]
      unfold cspParts
      rw [splitOnChar_no_sep hpsemi]
      simp [hps, hpn]
    | cons q u =>
      have hj : joinWith "; ".data (p :: q :: u) =
          p ++ ';' :: ' ' :: joinWith "; ".data (q :: u) := by
        rw [joinWith_cons (by simp)]
        simp
      have hsp2 : splitOnChar ';' (';' :: ' ' :: joinWith "; ".data (q :: u)) =
          [] :: splitOnChar ';' (' ' :: joinWith "; ".data (q :: u)) := by
        simp [splitOnChar]
      rcases hx : splitOnChar ';' (' ' :: joinWith "; ".data (q :: u)) with _ | ⟨r, rs⟩
      · exact absurd hx (splitOnChar_ne_nil _ _)
      · have hsp : splitOnChar ';' (p ++ ';' :: ' ' :: joinWith "; ".data (q :: u)) =
            (p ++ []) :: splitOnChar ';' (' ' :: joinWith "; ".data (q :: u)) := by
          exact splitOnChar_append_no_sep hpsemi (by rw [hsp2])
        rw [hj]
        unfold cspParts
        rw [hsp, List.map_cons]
        have hpp : pyStrip (p ++ []) = p := by simpa using hps
        rw [List.filter_cons]
        simp only [hpp]
        rw [if_pos (by simpa using hpn)]
        have htail := cspParts_cons_space (joinWith "; ".data (q :: u))
        unfold cspParts at htail
        have ihh := ih (fun r hr => h r (List.mem_cons_of_mem p hr))
        unfold cspParts at ihh
        rw [htail, ihh]

theorem foldl_upsert_map_entryText (fl : List (List Char × List Char))
    (acc : List (List Char × List Char))
    (h : ∀ e ∈ fl, parseDirectivePart (entryText e) = e) :
    (fl.map entryText).foldl
      (fun d part => dictUpsert (parseDirectivePart part).1 (parseDirectivePart part).2 d)
      acc = fl.foldl (fun d e => dictUpsert e.1 e.2 d) acc := by
  induction fl generalizing acc with
  | nil => rfl
  | cons e rest ih =>
    simp only [List.map_cons, List.foldl_cons, h e (List.mem_cons_self e rest)]
    exact ih _ (fun f hf => h f (List.mem_cons_of_mem e hf))

theorem parseCsp_render {d : List (List Char × List Char)} (hwf : WfDict d) :
    parseCsp (renderCsp d) = d.filter (fun e => e.1 ≠ frameAncestorsKey) := by
  set fl := d.filter (fun e => e.1 ≠ frameAncestorsKey) with hfl
  have hflwf : ∀ e ∈ fl, WfEntry e := fun e he => hwf.1 e (List.mem_of_mem_filter he)
  have hflnd : (fl.map Prod.fst).Nodup :=
    ((List.filter_sublist d).map Prod.fst).nodup hwf.2
  have hrender : renderCsp d = joinWith "; ".data (fl.map entryText) := rfl
  have hparts : cspParts (joinWith "; ".data (fl.map entryText)) = fl.map entryText := by
    refine cspParts_join ?_
    intro p hp
    obtain ⟨e, he, rfl⟩ := List.mem_map.mp hp
    obtain ⟨h1, h2, h3, _⟩ := entryText_props (hflwf e he)
    exact ⟨h1, h2, h3⟩
  have hpdp : ∀ e ∈ fl, parseDirectivePart (entryText e) = e :=
    fun e he => (entryText_props (hflwf e he)).2.2.2
  unfold parseCsp
  rw [hrender, hparts, foldl_upsert_map_entryText fl [] hpdp]
  exact foldl_dictUpsert_eq_append fl [] (by simpa using hflnd)

theorem dictFind_some_mem {d : List (List Char × List Char)} {k v : List Char}
    (h : dictFind d k = some v) : (k, v) ∈ d := by
  unfold dictFind at h
  rcases hf : d.find? (fun e => e.1 = k) with _ | e
  · rw [hf] at h; simp at h
  · rw [hf] at h
    obtain ⟨ka, va⟩ := e
    have hm := List.mem_of_find?_eq_some hf
    have hp := List.find?_some hf
    simp at hp h
    subst hp
    subst h
    exact hm

theorem dictGetD_ne_nil_find {d : List (List Char × List Char)} {k : List Char}
    (h : dictGetD d k [] ≠ []) : dictFind d k = some (dictGetD d k []) := by
  unfold dictGetD at h ⊢
  rcases hf : dictFind d k with _ | x
  · rw [hf] at h; simp at h
  · simp [hf]

theorem pySplitWs_ne_nil {s : List Char} (hne : s ≠ []) (hh : headNonWs s = true) :
    pySplitWs s ≠ [] := by
  cases s with
  | nil => exact absurd rfl hne
  | cons c t =>
    rw [pySplitWs, if_neg (by simp_all [headNonWs])]
    simp

theorem joinWith_sp_ne_nil {ws : List (List Char)} (h : ws ≠ [])
    (h2 : ∀ w ∈ ws, w ≠ []) : joinWith [' '] ws ≠ [] := by
  cases ws with
  | nil => exact absurd rfl h
  | cons w t =>
    cases t with
    | nil => exact h2 w (List.mem_cons_self _ _)
    | cons y u =>
      rw [joinWith_cons (by simp)]
      simp [h2 w (List.mem_cons_self _ _)]

theorem headNonWs_joinWith_sp {ws : List (List Char)} (h : ws ≠ [])
    (h2 : ∀ w ∈ ws, w ≠ [] ∧ ∀ a ∈ w, pyIsSpace a = false) :
    headNonWs (joinWith [' '] ws) = true := by
  cases ws with
  | nil => exact absurd rfl h
  | cons w t =>
    have hw := h2 w (List.mem_cons_self _ _)
    have hhw : headNonWs w = true := by
      cases w with
      | nil => exact absurd rfl hw.1
      | cons a b =>
        simp [headNonWs, hw.2 a (List.mem_cons_self _ _)]
    cases t with
    | nil => exact hhw
    | cons y u =>
      rw [joinWith_cons (by simp), List.append_assoc, headNonWs_append hw.1]
      exact hhw

theorem ensure_find_other {d : List (List Char × List Char)} {k : List Char}
    (hk : ¬(k = scriptSrcKey)) :
    dictFind (ensureUnsafeEvalDir d) k = dictFind d k := by
  by_cases hs : dictGetD d scriptSrcKey [] ≠ []
  · by_cases hue : ueTok ∈ pySplitWs (dictGetD d scriptSrcKey [])
    · unfold ensureUnsafeEvalDir
      rw [if_pos hs, if_pos hue]
    · unfold ensureUnsafeEvalDir
      rw [if_pos hs, if_neg hue, dictFind_upsert, if_neg hk]
  · unfold ensureUnsafeEvalDir
    rw [if_neg (by simpa using hs), dictFind_upsert, if_neg hk]

theorem ensure_scriptSrc {d : List (List Char × List Char)} (hwf : WfDict d) :
    ∃ t, dictFind (ensureUnsafeEvalDir d) scriptSrcKey = some t ∧ t ≠ [] ∧
      ueTok ∈ pySplitWs t ∧
      (pySplitWs t).count ueTok =
        (if (pySplitWs (dictGetD d scriptSrcKey [])).count ueTok = 0 then 1
         else (pySplitWs (dictGetD d scriptSrcKey [])).count ueTok) := by
  by_cases hs : dictGetD d scriptSrcKey [] ≠ []
  · have hfind := dictGetD_ne_nil_find hs
    have hwfs : WfEntry (scriptSrcKey, dictGetD d scriptSrcKey []) :=
      hwf.1 _ (dictFind_some_mem hfind)
    by_cases hue : ueTok ∈ pySplitWs (dictGetD d scriptSrcKey [])
    · refine ⟨dictGetD d scriptSrcKey [], ?_, by simpa using hs, hue, ?_⟩
      · unfold ensureUnsafeEvalDir
        rw [if_pos hs, if_pos hue]
        exact hfind
      · rw [if_neg (fun h0 => (List.count_eq_zero.mp h0) hue)]
    · have hv_strip : pyStrip (dictGetD d scriptSrcKey []) = dictGetD d scriptSrcKey [] :=
        hwfs.2.2.2.2.2.1
      have hh : headNonWs (dictGetD d scriptSrcKey []) = true :=
        hv_strip ▸ pyStrip_headNonWs _
      have hws_ne : pySplitWs (dictGetD d scriptSrcKey []) ≠ [] :=
        pySplitWs_ne_nil (by simpa using hs) hh
      have hwords := pySplitWs_words (dictGetD d scriptSrcKey [])
      have hall : ∀ w ∈ pySplitWs (dictGetD d scriptSrcKey []) ++ [ueTok],
          w ≠ [] ∧ ∀ a ∈ w, pyIsSpace a = false := by
        intro w hw
        rcases List.mem_append.mp hw with h1 | h1
        · obtain ⟨hn, hca⟩ := hwords w h1
          exact ⟨hn, fun a ha => (hca a ha).1⟩
        · rw [List.mem_singleton.mp h1]
          exact ⟨by decide, by decide⟩
      have hnv_join : joinWith [' '] (pySplitWs (dictGetD d scriptSrcKey [])) ++
          ' ' :: ueTok =
          joinWith [' '] (pySplitWs (dictGetD d scriptSrcKey []) ++ [ueTok]) := by
        rw [joinWith_append_last, if_neg (by simpa using hws_ne)]
        simp
      have hsplit : pySplitWs (joinWith [' ']
          (pySplitWs (dictGetD d scriptSrcKey [])) ++ ' ' :: ueTok) =
          pySplitWs (dictGetD d scriptSrcKey []) ++ [ueTok] := by
        rw [hnv_join]
        exact pySplitWs_join hall
      refine ⟨joinWith [' '] (pySplitWs (dictGetD d scriptSrcKey [])) ++ ' ' :: ueTok,
        ?_, by simp, ?_, ?_⟩
      · unfold ensureUnsafeEvalDir
        rw [if_pos hs, if_neg hue, dictFind_upsert, if_pos rfl]
      · rw [hsplit]
        exact List.mem_append.mpr (Or.inr (List.mem_singleton.mpr rfl))
      · rw [hsplit, List.count_append,
          List.count_eq_zero.mpr hue]
        simp [List.count_eq_zero.mpr hue]
  · have hs0 : dictGetD d scriptSrcKey [] = [] := by simpa using hs
    have h0 : pySplitWs ([] : List Char) = [] := by rw [pySplitWs]
    have hue0 : pySplitWs ueTok = [ueTok] := pySplitWs_word (by decide) (by decide)
    refine ⟨ueTok, ?_, by decide, ?_, ?_⟩
    · unfold ensureUnsafeEvalDir
      rw [if_neg (by simpa using hs), dictFind_upsert, if_pos rfl]
    · rw [hue0]; exact List.mem_singleton.mpr rfl
    · rw [hue0, hs0, h0]
      simp

theorem ensure_keys (d : List (List Char × List Char)) :
    (ensureUnsafeEvalDir d).map Prod.fst =
      if scriptSrcKey ∈ d.map Prod.fst then d.map Prod.fst
      else d.map Prod.fst ++ [scriptSrcKey] := by
  by_cases hs : dictGetD d scriptSrcKey [] ≠ []
  · have hfind := dictGetD_ne_nil_find hs
    have hmemk : scriptSrcKey ∈ d.map Prod.fst :=
      List.mem_map.mpr ⟨_, dictFind_some_mem hfind, rfl⟩
    by_cases hue : ueTok ∈ pySplitWs (dictGetD d scriptSrcKey [])
    · unfold ensureUnsafeEvalDir
      rw [if_pos hs, if_pos hue, if_pos hmemk]
    · unfold ensureUnsafeEvalDir
      rw [if_pos hs, if_neg hue, dictUpsert_keys]
  · unfold ensureUnsafeEvalDir
    rw [if_neg (by simpa using hs), dictUpsert_keys]

theorem ensure_wf {d : List (List Char × List Char)} (hwf : WfDict d) :
    WfDict (ensureUnsafeEvalDir d) := by
  by_cases hs : dictGetD d scriptSrcKey [] ≠ []
  · have hfind := dictGetD_ne_nil_find hs
    have hwfs : WfEntry (scriptSrcKey, dictGetD d scriptSrcKey []) :=
      hwf.1 _ (dictFind_some_mem hfind)
    by_cases hue : ueTok ∈ pySplitWs (dictGetD d scriptSrcKey [])
    · unfold ensureUnsafeEvalDir
      rw [if_pos hs, if_pos hue]
      exact hwf
    · unfold ensureUnsafeEvalDir
      rw [if_pos hs, if_neg hue]
      refine ⟨?_, dictUpsert_nodup hwf.2⟩
      intro e he
      rcases mem_dictUpsert he with rfl | hmem
      · -- the freshly written script-src entry
        have hv_strip : pyStrip (dictGetD d scriptSrcKey []) = dictGetD d scriptSrcKey [] :=
          hwfs.2.2.2.2.2.1
        have hv_semi : ∀ c ∈ dictGetD d scriptSrcKey [], c ≠ ';' := hwfs.2.2.2.2.2.2
        have hh : headNonWs (dictGetD d scriptSrcKey []) = true :=
          hv_strip ▸ pyStrip_headNonWs _
        have hws_ne : pySplitWs (dictGetD d scriptSrcKey []) ≠ [] :=
          pySplitWs_ne_nil (by simpa using hs) hh
        have hwords := pySplitWs_words (dictGetD d scriptSrcKey [])
        have hwordsne : ∀ w ∈ pySplitWs (dictGetD d scriptSrcKey []), w ≠ [] :=
          fun w hw => (hwords w hw).1
        have hJne : joinWith [' '] (pySplitWs (dictGetD d scriptSrcKey [])) ≠ [] :=
          joinWith_sp_ne_nil hws_ne hwordsne
        have hJhead : headNonWs (joinWith [' ']
            (pySplitWs (dictGetD d scriptSrcKey []))) = true :=
          headNonWs_joinWith_sp hws_ne
            (fun w hw => ⟨(hwords w hw).1, fun a ha => ((hwords w hw).2 a ha).1⟩)
        refine ⟨show scriptSrcKey ≠ [] from by decide,
                show ∀ c ∈ scriptSrcKey, c ≠ ' ' ∧ c ≠ ';' from by decide,
                show toLowerS scriptSrcKey = scriptSrcKey from by decide,
                show headNonWs scriptSrcKey = true from by decide, ?_, ?_, ?_⟩
        · intro he2
          exact absurd he2 (by simp)
        · refine pyStrip_eq_self ?_ ?_
          · rw [headNonWs_append hJne]
            exact hJhead
          · rw [lastNonWs_append _ (' ' :: ueTok) (by simp)]
            decide
        · intro c hc
          rcases List.mem_append.mp hc with h1 | h1
          · rcases mem_joinWith h1 with h2 | ⟨w, hw, haw⟩
            · rw [List.mem_singleton.mp h2]; decide
            · exact hv_semi c ((hwords w hw).2 c haw).2
          · exact (show ∀ c ∈ ' ' :: ueTok, c ≠ ';' from by decide) c h1
      · exact hwf.1 e hmem
  · unfold ensureUnsafeEvalDir
    rw [if_neg (by simpa using hs)]
    refine ⟨?_, dictUpsert_nodup hwf.2⟩
    intro e he
    rcases mem_dictUpsert he with rfl | hmem
    · exact ⟨by decide, by decide, by decide, by decide, fun _ => by decide,
             by decide, by decide⟩
    · exact hwf.1 e hmem

theorem ensure_of_ok {d : List (List Char × List Char)} {t : List Char}
    (hf : dictFind d scriptSrcKey = some t) (hne : t ≠ [])
    (hue : ueTok ∈ pySplitWs t) : ensureUnsafeEvalDir d = d := by
  have hg : dictGetD d scriptSrcKey [] = t := by
    unfold dictGetD
    rw [hf]
    rfl
  unfold ensureUnsafeEvalDir
  rw [hg, if_pos hne, if_pos hue]

theorem dictFind_filter (d : List (List Char × List Char)) (ban k : List Char) :
    dictFind (d.filter (fun e => e.1 ≠ ban)) k =
      if k = ban then none else dictFind d k := by
  induction d with
  | nil => by_cases h : k = ban <;> simp [dictFind, h]
  | cons e rest ih =>
    obtain ⟨ka, va⟩ := e
    rw [List.filter_cons]
    by_cases hb : ka = ban <;> by_cases hk : k = ban
    · rw [if_neg (by simp [hb]), ih, if_pos hk, if_pos hk]
    · rw [if_neg (by simp [hb]), ih, if_neg hk, if_neg hk, dictFind_cons,
        if_neg (show ¬(ka = k) from fun he => hk (he.symm.trans hb))]
    · rw [if_pos (by simp [hb]), dictFind_cons,
        if_neg (show ¬(ka = k) from fun he => hb (he.trans hk)), ih, if_pos hk, if_pos hk]
    · rw [if_pos (by simp [hb]), dictFind_cons, ih, if_neg hk, if_neg hk, dictFind_cons]
theorem keys_filter (d : List (List Char × List Char)) (ban : List Char) :
    (d.filter (fun e => e.1 ≠ ban)).map Prod.fst =
      (d.map Prod.fst).filter (fun k => k ≠ ban) := by
  induction d with
  | nil => rfl
  | cons e rest ih =>
    obtain ⟨ka, va⟩ := e
    rw [List.map_cons, List.filter_cons, List.filter_cons]
    by_cases hb : ka = ban <;> simp [hb] <;> simpa using ih

theorem renderCsp_filter (d : List (List Char × List Char)) :
    renderCsp (d.filter (fun e => e.1 ≠ frameAncestorsKey)) = renderCsp d := by
  unfold renderCsp
  rw [List.filter_filter]
  congr 1
  congr 1
  exact List.filter_congr (fun e _ => by simp)

/-- C6: modify_csp is idempotent; it puts exactly one new `'unsafe-eval'`
token into the script-src source list when none was present and otherwise
leaves the occurrence count unchanged (never duplicating it); the
frame-ancestors directive is absent from the output; the output's
script-src list contains `'unsafe-eval'`; every directive other than
script-src keeps its exact source-list text; and the relative order of
surviving directives is preserved (with a new script-src, if needed,
appended at the end). -/
theorem C6_modify_csp (v : List Char) :
    modify_csp (modify_csp v) = modify_csp v ∧
    ueTok ∈ scriptSources (modify_csp v) ∧
    (scriptSources (modify_csp v)).count ueTok =
      (if (scriptSources v).count ueTok = 0 then 1 else (scriptSources v).count ueTok) ∧
    dictFind (parseCsp (modify_csp v)) frameAncestorsKey = none ∧
    (∀ k, k ≠ scriptSrcKey →
      dictFind (parseCsp (modify_csp v)) k =
        (if k = frameAncestorsKey then none else dictFind (parseCsp v) k)) ∧
    (parseCsp (modify_csp v)).map Prod.fst =
      ((parseCsp v).map Prod.fst ++
        (if scriptSrcKey ∈ (parseCsp v).map Prod.fst then [] else [scriptSrcKey])).filter
        (fun k => k ≠ frameAncestorsKey) := by
  have hdwf : WfDict (parseCsp v) := parseCsp_wf v
  have h1wf : WfDict (ensureUnsafeEvalDir (parseCsp v)) := ensure_wf hdwf
  have hround : parseCsp (modify_csp v) =
      (ensureUnsafeEvalDir (parseCsp v)).filter (fun e => e.1 ≠ frameAncestorsKey) := by
    unfold modify_csp
    exact parseCsp_render h1wf
  obtain ⟨t, hft, htne, htue, htcount⟩ := ensure_scriptSrc hdwf
  have hssne : ¬(scriptSrcKey = frameAncestorsKey) := by decide
  have hfindSS : dictFind (parseCsp (modify_csp v)) scriptSrcKey = some t := by
    rw [hround, dictFind_filter, if_neg hssne]
    exact hft
  have hsources : scriptSources (modify_csp v) = pySplitWs t := by
    unfold scriptSources dictGetD
    rw [hfindSS]
    rfl
  have hsv : scriptSources v = pySplitWs (dictGetD (parseCsp v) scriptSrcKey []) := rfl
  refine ⟨?_, ?_, ?_, ?_, ?_, ?_⟩
  · have hens : ensureUnsafeEvalDir (parseCsp (modify_csp v)) = parseCsp (modify_csp v) :=
      ensure_of_ok hfindSS htne htue
    have h2 : modify_csp (modify_csp v) = renderCsp (parseCsp (modify_csp v)) := by
      rw [show modify_csp (modify_csp v) =
        renderCsp (ensureUnsafeEvalDir (parseCsp (modify_csp v))) from rfl, hens]
    rw [h2, hround, renderCsp_filter]
    rfl
  · rw [hsources]
    exact htue
  · rw [hsources, hsv]
    exact htcount
  · rw [hround, dictFind_filter, if_pos rfl]
  · intro k hk
    rw [hround, dictFind_filter]
    by_cases hkfa : k = frameAncestorsKey
    · rw [if_pos hkfa, if_pos hkfa]
    · rw [if_neg hkfa, if_neg hkfa, ensure_find_other hk]
  · rw [hround, keys_filter, ensure_keys]
    by_cases hm : scriptSrcKey ∈ (parseCsp v).map Prod.fst
    · rw [if_pos hm, if_pos hm]
      simp
    · rw [if_neg hm, if_neg hm]

/-- C6, instantiated: the source-list text of a directive other than
script-src survives modify_csp unchanged. -/
theorem C6_modify_csp_witness :
    "img-src".data ≠ scriptSrcKey ∧
    dictFind (parseCsp (modify_csp "img-src a b; frame-ancestors c".data)) "img-src".data =
      (if "img-src".data = frameAncestorsKey then none
       else dictFind (parseCsp "img-src a b; frame-ancestors c".data) "img-src".data) :=
  ⟨by decide, (C6_modify_csp "img-src a b; frame-ancestors c".data).2.2.2.2.1
    "img-src".data (by decide)⟩
